import Mathlib

/-!
Formal verification of the statistical core of the marvel-rivals-stats
repository: the functions of `src/utils/statistics.py`, the synergy pipeline
of `src/analyzers/teammate_synergy.py` and the win-rate pipeline of
`src/analyzers/character_winrate.py`.

Embedding conventions.

The Python code computes with IEEE floats; we embed the arithmetic as exact
rational arithmetic (`ℚ`), and Python `round(x, k)` is modelled as
round-half-up at `k` decimal digits (`roundTo` below).  Square roots
(`** 0.5`, `np.sqrt`) are irrational, so the functions using them are
embedded exactly: every floor/ceiling or comparison of an expression
`c ± √m` is computed through exact integer square roots (`natSqrt`,
`ceilSqrtNat`), and bridge lemmas relate those computable definitions to the
real-valued formulas of the source.  The normal quantiles produced by
`scipy.stats.norm.ppf` (an external library, not part of this repository)
enter the code only as the constants `z_alpha = Φ⁻¹(1-alpha/2)` and
`z_beta = Φ⁻¹(power)`; they are modelled as exact rational parameters, and
instantiated with the float64 values the code obtains for the defaults
(`confidence = 0.95`, `alpha = 0.05`, `power = 0.80`) where the code uses
the defaults.  Likewise `scipy.stats.binomtest` is modelled as an abstract
p-value oracle parameter of the synergy pipeline.
-/

set_option maxRecDepth 8000

/-- Integer square root, by the classical base-4 divide-and-conquer recursion.
The recursion is structural in an explicit fuel argument so that the kernel
can evaluate it on large literals. -/
def isqrtAux : ℕ → ℕ → ℕ
  | 0, _ => 0
  | fuel+1, n =>
    if n < 2 then n
    else
      let r := 2 * isqrtAux fuel (n / 4)
      if (r+1)^2 ≤ n then r+1 else r

/-- Integer square root of a natural number (`fuel := n` always suffices). -/
def natSqrt (n : ℕ) : ℕ := isqrtAux n n

/-- Integer ceiling of the square root of a natural number. -/
def ceilSqrtNat (x : ℕ) : ℕ :=
  if natSqrt x * natSqrt x = x then natSqrt x else natSqrt x + 1

lemma isqrtAux_spec : ∀ fuel n : ℕ, n ≤ fuel →
    (isqrtAux fuel n)^2 ≤ n ∧ n < (isqrtAux fuel n + 1)^2 := by
  intro fuel
  induction fuel with
  | zero =>
    intro n hn
    interval_cases n
    simp [isqrtAux]
  | succ f ih =>
    intro n hn
    by_cases h2 : n < 2
    · simp only [isqrtAux, if_pos h2]
      interval_cases n <;> simp
    · have hrec := ih (n / 4) (by omega)
      simp only [isqrtAux, if_neg h2]
      set r := isqrtAux f (n / 4) with hr
      have h4 : 4 * (n / 4) ≤ n := Nat.mul_div_le n 4
      have hlow : (2*r)^2 ≤ n := by
        have h1 := hrec.1
        calc (2*r)^2 = 4 * r^2 := by ring
          _ ≤ 4 * (n / 4) := by omega
          _ ≤ n := h4
      have hhigh : n < (2*r+2)^2 := by
        have h1 := hrec.2
        have h5 : n < 4 * (n / 4) + 4 := by omega
        have h6 : n / 4 + 1 ≤ (r+1)^2 := h1
        calc n < 4 * (n / 4) + 4 := h5
          _ = 4 * (n / 4 + 1) := by ring
          _ ≤ 4 * (r+1)^2 := by omega
          _ = (2*r+2)^2 := by ring
      by_cases h3 : (2*r+1)^2 ≤ n
      · rw [if_pos h3]
        refine ⟨h3, ?_⟩
        have : 2*r+1+1 = 2*r+2 := by ring
        rw [this]
        exact hhigh
      · rw [if_neg h3]
        exact ⟨hlow, by omega⟩

lemma natSqrt_spec (n : ℕ) : (natSqrt n)^2 ≤ n ∧ n < (natSqrt n + 1)^2 :=
  isqrtAux_spec n n le_rfl

lemma real_sqrt_lt_of_lt_sq {x y : ℝ} (hy : 0 < y) (h : x < y^2) :
    Real.sqrt x < y := by
  rcases le_or_lt x 0 with hx | hx
  · calc Real.sqrt x = 0 := Real.sqrt_eq_zero_of_nonpos hx
      _ < y := hy
  · calc Real.sqrt x < Real.sqrt (y^2) := Real.sqrt_lt_sqrt hx.le h
      _ = y := Real.sqrt_sq hy.le

lemma real_lt_sqrt_of_sq_lt {x y : ℝ} (hx : 0 ≤ x) (h : x^2 < y) :
    x < Real.sqrt y := by
  have h0 : Real.sqrt (x^2) < Real.sqrt y := Real.sqrt_lt_sqrt (by positivity) h
  rwa [Real.sqrt_sq hx] at h0

lemma natSqrt_le_real (n : ℕ) : (natSqrt n : ℝ) ≤ Real.sqrt n := by
  refine (Real.le_sqrt (by positivity) (by positivity)).mpr ?_
  exact_mod_cast (natSqrt_spec n).1

lemma real_lt_natSqrt_succ (n : ℕ) : Real.sqrt n < (natSqrt n : ℝ) + 1 := by
  have h := (natSqrt_spec n).2
  refine real_sqrt_lt_of_lt_sq (by positivity) ?_
  exact_mod_cast h

lemma real_sqrt_le_ceilSqrtNat (n : ℕ) : Real.sqrt n ≤ (ceilSqrtNat n : ℝ) := by
  unfold ceilSqrtNat
  split_ifs with h
  · have hsq : ((natSqrt n : ℝ)) * natSqrt n = (n : ℝ) := by exact_mod_cast h
    rw [← hsq, Real.sqrt_mul_self (by positivity)]
  · push_cast
    exact (real_lt_natSqrt_succ n).le

lemma ceilSqrtNat_lt_real_succ (n : ℕ) : (ceilSqrtNat n : ℝ) < Real.sqrt n + 1 := by
  unfold ceilSqrtNat
  split_ifs with h
  · have hsq : ((natSqrt n : ℝ)) * natSqrt n = (n : ℝ) := by exact_mod_cast h
    have h2 : Real.sqrt n = (natSqrt n : ℝ) := by
      rw [← hsq, Real.sqrt_mul_self (by positivity)]
    rw [h2]
    linarith
  · have hlt : (natSqrt n)^2 < n :=
      lt_of_le_of_ne (natSqrt_spec n).1 (fun hc => h (by rw [← pow_two]; exact hc))
    have h3 : (natSqrt n : ℝ) < Real.sqrt n := by
      refine real_lt_sqrt_of_sq_lt (by positivity) ?_
      exact_mod_cast hlt
    push_cast
    linarith

/-- Division characterization: `(u - s) / m` (natural subtraction and
division) is the floor of `(u - t)/m` when `s` is the ceiling of the real
number `t`. -/
lemma natDiv_sub_eq_floor (u s m : ℕ) (hm : 0 < m) (t : ℝ)
    (hts : t ≤ s) (hst : (s : ℝ) < t + 1) (hsu : s ≤ u) :
    (((u - s) / m : ℕ) : ℤ) = ⌊(((u : ℝ)) - t) / m⌋ := by
  have hmod : m * ((u - s) / m) + (u - s) % m = u - s := Nat.div_add_mod (u - s) m
  have hr : (u - s) % m < m := Nat.mod_lt _ hm
  have hcast : ((u - s : ℕ) : ℝ) = (u : ℝ) - s := by
    push_cast [Nat.cast_sub hsu]
    ring
  have hlow : ((((u - s) / m : ℕ)) : ℝ) ≤ ((u : ℝ) - t) / m := by
    rw [le_div_iff₀ (by positivity)]
    have h1 : ((m * ((u - s) / m) : ℕ) : ℝ) ≤ (u : ℝ) - s := by
      calc ((m * ((u - s) / m) : ℕ) : ℝ) ≤ ((u - s : ℕ) : ℝ) := by
            exact_mod_cast Nat.mul_div_le (u - s) m
        _ = (u : ℝ) - s := hcast
    push_cast at h1 ⊢
    nlinarith [h1]
  have hhigh : ((u : ℝ) - t) / m < ((u - s) / m : ℕ) + 1 := by
    rw [div_lt_iff₀ (by positivity)]
    have h1 : (u : ℝ) - s ≤ ((m * ((u - s) / m) : ℕ) : ℝ) + (((u - s) % m : ℕ) : ℝ) := by
      rw [← hcast]
      exact_mod_cast Nat.le_of_eq hmod.symm
    have h2 : (((u - s) % m : ℕ) : ℝ) ≤ (m : ℝ) - 1 := by
      have h3 : (u - s) % m + 1 ≤ m := hr
      have h4 := (Nat.cast_le (α := ℝ)).mpr h3
      push_cast at h4
      linarith
    push_cast at h1 ⊢
    nlinarith [h1, h2]
  symm
  rw [Int.floor_eq_iff]
  constructor
  · exact_mod_cast hlow
  · push_cast
    exact_mod_cast hhigh

/-- Division characterization: `(u + f) / m` (natural division) is the floor
of `(u + t)/m` when `f` is the floor of the real number `t`. -/
lemma natDiv_add_eq_floor (u f m : ℕ) (hm : 0 < m) (t : ℝ)
    (hft : (f : ℝ) ≤ t) (htf : t < (f : ℝ) + 1) :
    (((u + f) / m : ℕ) : ℤ) = ⌊(((u : ℝ)) + t) / m⌋ := by
  have hmod : m * ((u + f) / m) + (u + f) % m = u + f := Nat.div_add_mod (u + f) m
  have hr : (u + f) % m < m := Nat.mod_lt _ hm
  have hlow : ((((u + f) / m : ℕ)) : ℝ) ≤ ((u : ℝ) + t) / m := by
    rw [le_div_iff₀ (by positivity)]
    have h1 : ((m * ((u + f) / m) : ℕ) : ℝ) ≤ (u : ℝ) + f := by
      exact_mod_cast Nat.mul_div_le (u + f) m
    push_cast at h1 ⊢
    nlinarith [h1]
  have hhigh : ((u : ℝ) + t) / m < ((u + f) / m : ℕ) + 1 := by
    rw [div_lt_iff₀ (by positivity)]
    have h1 : (u : ℝ) + f ≤ ((m * ((u + f) / m) : ℕ) : ℝ) + (((u + f) % m : ℕ) : ℝ) := by
      exact_mod_cast Nat.le_of_eq hmod.symm
    have h2 : (((u + f) % m : ℕ) : ℝ) ≤ (m : ℝ) - 1 := by
      have h3 : (u + f) % m + 1 ≤ m := hr
      have h4 := (Nat.cast_le (α := ℝ)).mpr h3
      push_cast at h4
      linarith
    push_cast at h1 ⊢
    nlinarith [h1, h2]
  symm
  rw [Int.floor_eq_iff]
  constructor
  · exact_mod_cast hlow
  · push_cast
    exact_mod_cast hhigh

/-- Model of Python `round(x, k)`: round half-up at `k` decimal digits
(Python uses round-half-even on the underlying binary floats; the two agree
except on exact decimal ties, which the proofs below do not rely on). -/
def roundTo (k : ℕ) (x : ℚ) : ℚ := ((⌊x * 10^k + 1/2⌋ : ℤ) : ℚ) / 10^k

lemma roundTo_exists_int (k : ℕ) (x : ℚ) :
    ∃ z : ℤ, roundTo k x = (z : ℚ) / 10^k :=
  ⟨⌊x * 10^k + 1/2⌋, rfl⟩

lemma roundTo_int_div (k : ℕ) (z : ℤ) :
    roundTo k ((z : ℚ) / 10^k) = (z : ℚ) / 10^k := by
  unfold roundTo
  have h10 : ((10:ℚ))^k ≠ 0 := by positivity
  have h1 : (z : ℚ) / 10^k * 10^k + 1/2 = (z : ℚ) + 1/2 := by
    field_simp
  rw [h1]
  have h2 : ⌊(z : ℚ) + 1/2⌋ = z + ⌊(1/2 : ℚ)⌋ := Int.floor_int_add z (1/2)
  rw [h2]
  norm_num

lemma roundTo_sub_int_div (k : ℕ) (a : ℚ) (z : ℤ) :
    roundTo k (a - (z : ℚ) / 10^k) = roundTo k a - (z : ℚ) / 10^k := by
  unfold roundTo
  have h10 : ((10:ℚ))^k ≠ 0 := by positivity
  have h1 : (a - (z : ℚ) / 10^k) * 10^k + 1/2 = (a * 10^k + 1/2) - (z : ℚ) := by
    field_simp
    ring
  rw [h1, Int.floor_sub_int]
  push_cast
  field_simp

/-!
Embedding of `wilson_confidence_interval` from `src/utils/statistics.py`
(lines 13-46).  For `total == 0` the code returns `(0.0, 0.0)`; otherwise

    p      = wins / total
    z      = norm.ppf(1 - (1 - confidence) / 2)
    denom  = 1 + z^2 / total
    center = (p + z^2 / (2 total)) / denom
    margin = z * sqrt(p (1-p) / total + z^2 / (4 total^2)) / denom
    return (round(max(0, center - margin), 4), round(min(1, center + margin), 4))

`wilsonCenter` and `wilsonMsq` below are the exact rational values of
`center` and of `margin^2`.  `wilsonCore` computes the two rounded clamped
bounds exactly over ℕ: writing `z = a/b`, `D = b^2 total + a^2`,
`c = total (2 b^2 wins + a^2)` and
`E = a^2 (4 b^2 wins (total - wins) + a^2 total)` one has
`center = c / (2 total D)` and `margin = sqrt(E total) / (2 total D)`, and
the floor defining `round(_, 4)` is evaluated with exact integer square
roots.  `wilsonCore_fst`/`wilsonCore_snd` prove that the core equals the
rounding of the clamped `center ∓ sqrt(wilsonMsq)`.
-/

/-- Exact rational value of the local variable `center` of
`wilson_confidence_interval` (for `total > 0`). -/
def wilsonCenter (z : ℚ) (wins total : ℕ) : ℚ :=
  ((wins : ℚ)/total + z^2/(2*total)) / (1 + z^2/total)

/-- Exact rational value of the square of the local variable `margin` of
`wilson_confidence_interval` (for `total > 0`); `margin = √(wilsonMsq)`. -/
def wilsonMsq (z : ℚ) (wins total : ℕ) : ℚ :=
  z^2 * (((wins : ℚ)/total) * (1 - (wins : ℚ)/total) / total + z^2/(4*total^2))
    / (1 + z^2/total)^2

/-- Exact-arithmetic core of `wilson_confidence_interval` for `z = a/b`. -/
def wilsonCore (a b wins total : ℕ) : ℚ × ℚ :=
  if total = 0 then (0, 0) else
    let D := b^2*total + a^2
    let c := total*(2*b^2*wins + a^2)
    let E := a^2*(4*b^2*wins*(total - wins) + a^2*total)
    let X := 10^8 * (E*total)
    let U := 10^4*c + total*D
    let m := 2*total*D
    (((if c^2 ≤ E*total then 0 else (U - ceilSqrtNat X)/m : ℕ) : ℚ) / 10^4,
     ((if 2*total*D ≤ c ∨ (2*total*D - c)^2 ≤ E*total then (10^4 : ℕ)
       else (U + natSqrt X)/m : ℕ) : ℚ) / 10^4)

/-- Embedding of `wilson_confidence_interval(wins, total)` at the default
`confidence = 0.95`: the code computes `z = norm.ppf(0.975)` (float64 value
`1.959963984540054`), modelled by the exact rational with those digits. -/
def wilson_confidence_interval (wins total : ℕ) : ℚ × ℚ :=
  wilsonCore 1959963984540054 1000000000000000 wins total

lemma wilsonCenter_core (a b w n : ℕ) (hb : 0 < b) (hn : 0 < n) :
    wilsonCenter ((a : ℚ)/b) w n
      = ((n*(2*b^2*w + a^2) : ℕ) : ℚ) / ((2*n*(b^2*n + a^2) : ℕ) : ℚ) := by
  have hb0 : ((b : ℚ)) ≠ 0 := by positivity
  have hn0 : ((n : ℚ)) ≠ 0 := by positivity
  have hD : ((b : ℚ))^2*n + (a : ℚ)^2 ≠ 0 := by positivity
  unfold wilsonCenter
  push_cast
  rw [div_eq_div_iff]
  · field_simp
    ring
  · have h1 : (0 : ℚ) < 1 + ((a : ℚ)/b)^2/n := by positivity
    linarith [h1]
  · positivity

lemma wilsonMsq_core (a b w n : ℕ) (hb : 0 < b) (hn : 0 < n) (hw : w ≤ n) :
    wilsonMsq ((a : ℚ)/b) w n
      = ((a^2*(4*b^2*w*(n - w) + a^2*n) * n : ℕ) : ℚ)
        / ((2*n*(b^2*n + a^2) : ℕ) : ℚ)^2 := by
  have hb0 : ((b : ℚ)) ≠ 0 := by positivity
  have hn0 : ((n : ℚ)) ≠ 0 := by positivity
  unfold wilsonMsq
  push_cast [Nat.cast_sub hw]
  rw [div_eq_div_iff]
  · field_simp
    ring
  · have h1 : (0 : ℚ) < (1 + ((a : ℚ)/b)^2/n)^2 := by positivity
    linarith [h1]
  · positivity

lemma wilsonCore_fst (a b w n : ℕ) (ha : 0 < a) (hb : 0 < b) (hn : 0 < n)
    (hw : w ≤ n) :
    (((wilsonCore a b w n).1 : ℚ) : ℝ)
      = ((⌊(10^4 : ℝ) * max 0 (((wilsonCenter ((a : ℚ)/b) w n : ℚ) : ℝ)
            - Real.sqrt (((wilsonMsq ((a : ℚ)/b) w n : ℚ) : ℝ))) + 1/2⌋ : ℤ) : ℝ)
          / 10^4 := by
  have hn0 : n ≠ 0 := hn.ne'
  simp only [wilsonCore, if_neg hn0]
  have hD : 0 < b^2*n + a^2 := by positivity
  have hc : 0 < n*(2*b^2*w + a^2) := by positivity
  have hm : 0 < 2*n*(b^2*n + a^2) := by positivity
  -- real values of center and margin
  have hCen : ((wilsonCenter ((a : ℚ)/b) w n : ℚ) : ℝ)
      = ((n*(2*b^2*w + a^2) : ℕ) : ℝ) / ((2*n*(b^2*n + a^2) : ℕ) : ℝ) := by
    rw [wilsonCenter_core a b w n hb hn]
    push_cast
    ring
  have hMq : ((wilsonMsq ((a : ℚ)/b) w n : ℚ) : ℝ)
      = ((a^2*(4*b^2*w*(n - w) + a^2*n) * n : ℕ) : ℝ)
        / ((2*n*(b^2*n + a^2) : ℕ) : ℝ)^2 := by
    rw [wilsonMsq_core a b w n hb hn hw]
    push_cast
    ring
  have hMz : Real.sqrt (((wilsonMsq ((a : ℚ)/b) w n : ℚ) : ℝ))
      = Real.sqrt ((a^2*(4*b^2*w*(n - w) + a^2*n) * n : ℕ))
        / ((2*n*(b^2*n + a^2) : ℕ) : ℝ) := by
    rw [hMq, Real.sqrt_div (by positivity), Real.sqrt_sq (by positivity)]
  by_cases hcond : (n*(2*b^2*w + a^2))^2 ≤ a^2*(4*b^2*w*(n - w) + a^2*n)*n
  · -- center ≤ margin : the clamp makes the lower bound 0
    rw [if_pos hcond]
    have hle : ((n*(2*b^2*w + a^2) : ℕ) : ℝ)
        ≤ Real.sqrt ((a^2*(4*b^2*w*(n - w) + a^2*n) * n : ℕ)) := by
      refine (Real.le_sqrt (by positivity) (by positivity)).mpr ?_
      exact_mod_cast hcond
    have hneg : ((wilsonCenter ((a : ℚ)/b) w n : ℚ) : ℝ)
        - Real.sqrt (((wilsonMsq ((a : ℚ)/b) w n : ℚ) : ℝ)) ≤ 0 := by
      rw [hCen, hMz]
      rw [div_sub_div_same]
      apply div_nonpos_of_nonpos_of_nonneg
      · linarith
      · positivity
    rw [max_eq_left hneg]
    norm_num
  · -- positive branch : exact integer computation of the floor
    rw [if_neg hcond]
    push_neg at hcond
    have hsqlt : Real.sqrt ((a^2*(4*b^2*w*(n - w) + a^2*n) * n : ℕ))
        < ((n*(2*b^2*w + a^2) : ℕ) : ℝ) := by
      refine real_sqrt_lt_of_lt_sq (by positivity) ?_
      exact_mod_cast hcond
    have hpos : 0 < ((wilsonCenter ((a : ℚ)/b) w n : ℚ) : ℝ)
        - Real.sqrt (((wilsonMsq ((a : ℚ)/b) w n : ℚ) : ℝ)) := by
      rw [hCen, hMz, div_sub_div_same]
      apply div_pos
      · linarith
      · positivity
    rw [max_eq_right hpos.le]
    -- the argument of the floor as an integer-sqrt quotient
    have hXcast : ((10^8 * (a^2*(4*b^2*w*(n - w) + a^2*n)*n) : ℕ) : ℝ)
        = (10^4 : ℝ)^2 * ((a^2*(4*b^2*w*(n - w) + a^2*n) * n : ℕ) : ℝ) := by
      push_cast
      ring
    have hXs : Real.sqrt ((10^8 * (a^2*(4*b^2*w*(n - w) + a^2*n)*n) : ℕ))
        = (10^4 : ℝ) * Real.sqrt ((a^2*(4*b^2*w*(n - w) + a^2*n) * n : ℕ)) := by
      rw [hXcast, Real.sqrt_mul (by positivity), Real.sqrt_sq (by positivity)]
    have harg : (10^4 : ℝ) * (((wilsonCenter ((a : ℚ)/b) w n : ℚ) : ℝ)
          - Real.sqrt (((wilsonMsq ((a : ℚ)/b) w n : ℚ) : ℝ))) + 1/2
        = (((10^4*(n*(2*b^2*w + a^2)) + n*(b^2*n + a^2) : ℕ) : ℝ)
            - Real.sqrt ((10^8 * (a^2*(4*b^2*w*(n - w) + a^2*n)*n) : ℕ)))
          / ((2*n*(b^2*n + a^2) : ℕ) : ℝ) := by
      rw [hCen, hMz, hXs]
      have hm0 : ((2*n*(b^2*n + a^2) : ℕ) : ℝ) ≠ 0 := by positivity
      field_simp
      ring
    rw [harg]
    -- ceiling of the inner square root is at most the numerator
    have hs1 : Real.sqrt ((10^8 * (a^2*(4*b^2*w*(n - w) + a^2*n)*n) : ℕ))
        ≤ (ceilSqrtNat (10^8 * (a^2*(4*b^2*w*(n - w) + a^2*n)*n)) : ℝ) :=
      real_sqrt_le_ceilSqrtNat _
    have hs2 : (ceilSqrtNat (10^8 * (a^2*(4*b^2*w*(n - w) + a^2*n)*n)) : ℝ)
        < Real.sqrt ((10^8 * (a^2*(4*b^2*w*(n - w) + a^2*n)*n) : ℕ)) + 1 :=
      ceilSqrtNat_lt_real_succ _
    have hsu : ceilSqrtNat (10^8 * (a^2*(4*b^2*w*(n - w) + a^2*n)*n))
        ≤ 10^4*(n*(2*b^2*w + a^2)) + n*(b^2*n + a^2) := by
      have h1 : (ceilSqrtNat (10^8 * (a^2*(4*b^2*w*(n - w) + a^2*n)*n)) : ℝ)
          < ((10^4*(n*(2*b^2*w + a^2)) + n*(b^2*n + a^2) : ℕ) : ℝ) + 1 := by
        have h2 : Real.sqrt ((10^8 * (a^2*(4*b^2*w*(n - w) + a^2*n)*n) : ℕ))
            < ((10^4*(n*(2*b^2*w + a^2)) : ℕ) : ℝ) := by
          rw [hXs]
          push_cast
          push_cast at hsqlt
          nlinarith [hsqlt]
        have h3 : ((10^4*(n*(2*b^2*w + a^2)) : ℕ) : ℝ)
            ≤ ((10^4*(n*(2*b^2*w + a^2)) + n*(b^2*n + a^2) : ℕ) : ℝ) := by
          exact_mod_cast Nat.le_add_right _ _
        linarith
      have h4 : ceilSqrtNat (10^8 * (a^2*(4*b^2*w*(n - w) + a^2*n)*n))
          < 10^4*(n*(2*b^2*w + a^2)) + n*(b^2*n + a^2) + 1 := by
        exact_mod_cast h1
      omega
    have hkey := natDiv_sub_eq_floor
      (10^4*(n*(2*b^2*w + a^2)) + n*(b^2*n + a^2))
      (ceilSqrtNat (10^8 * (a^2*(4*b^2*w*(n - w) + a^2*n)*n)))
      (2*n*(b^2*n + a^2)) hm
      (Real.sqrt ((10^8 * (a^2*(4*b^2*w*(n - w) + a^2*n)*n) : ℕ)))
      hs1 hs2 hsu
    rw [← hkey]
    simp only [Rat.cast_div, Rat.cast_natCast, Rat.cast_pow, Rat.cast_ofNat,
      Int.cast_natCast]

lemma wilsonCore_snd (a b w n : ℕ) (ha : 0 < a) (hb : 0 < b) (hn : 0 < n)
    (hw : w ≤ n) :
    (((wilsonCore a b w n).2 : ℚ) : ℝ)
      = ((⌊(10^4 : ℝ) * min 1 (((wilsonCenter ((a : ℚ)/b) w n : ℚ) : ℝ)
            + Real.sqrt (((wilsonMsq ((a : ℚ)/b) w n : ℚ) : ℝ))) + 1/2⌋ : ℤ) : ℝ)
          / 10^4 := by
  have hn0 : n ≠ 0 := hn.ne'
  simp only [wilsonCore, if_neg hn0]
  have hD : 0 < b^2*n + a^2 := by positivity
  have hc : 0 < n*(2*b^2*w + a^2) := by positivity
  have hm : 0 < 2*n*(b^2*n + a^2) := by positivity
  have hCen : ((wilsonCenter ((a : ℚ)/b) w n : ℚ) : ℝ)
      = ((n*(2*b^2*w + a^2) : ℕ) : ℝ) / ((2*n*(b^2*n + a^2) : ℕ) : ℝ) := by
    rw [wilsonCenter_core a b w n hb hn]
    push_cast
    ring
  have hMq : ((wilsonMsq ((a : ℚ)/b) w n : ℚ) : ℝ)
      = ((a^2*(4*b^2*w*(n - w) + a^2*n) * n : ℕ) : ℝ)
        / ((2*n*(b^2*n + a^2) : ℕ) : ℝ)^2 := by
    rw [wilsonMsq_core a b w n hb hn hw]
    push_cast
    ring
  have hMz : Real.sqrt (((wilsonMsq ((a : ℚ)/b) w n : ℚ) : ℝ))
      = Real.sqrt ((a^2*(4*b^2*w*(n - w) + a^2*n) * n : ℕ))
        / ((2*n*(b^2*n + a^2) : ℕ) : ℝ) := by
    rw [hMq, Real.sqrt_div (by positivity), Real.sqrt_sq (by positivity)]
  by_cases hcond : 2*n*(b^2*n + a^2) ≤ n*(2*b^2*w + a^2)
      ∨ (2*n*(b^2*n + a^2) - n*(2*b^2*w + a^2))^2
          ≤ a^2*(4*b^2*w*(n - w) + a^2*n)*n
  · -- center + margin ≥ 1 : the clamp makes the upper bound 1
    rw [if_pos hcond]
    have hge : (1 : ℝ) ≤ ((wilsonCenter ((a : ℚ)/b) w n : ℚ) : ℝ)
        + Real.sqrt (((wilsonMsq ((a : ℚ)/b) w n : ℚ) : ℝ)) := by
      rw [hCen, hMz, div_add_div_same, le_div_iff₀ (by positivity), one_mul]
      rcases hcond with hcase | hcase
      · have h1 : ((2*n*(b^2*n + a^2) : ℕ) : ℝ) ≤ ((n*(2*b^2*w + a^2) : ℕ) : ℝ) := by
          exact_mod_cast hcase
        have h2 : (0:ℝ) ≤ Real.sqrt ((a^2*(4*b^2*w*(n - w) + a^2*n) * n : ℕ)) :=
          Real.sqrt_nonneg _
        linarith
      · have h1 : ((2*n*(b^2*n + a^2) - n*(2*b^2*w + a^2) : ℕ) : ℝ)
            ≤ Real.sqrt ((a^2*(4*b^2*w*(n - w) + a^2*n) * n : ℕ)) := by
          refine (Real.le_sqrt (by positivity) (by positivity)).mpr ?_
          exact_mod_cast hcase
        have h2 : ((n*(2*b^2*w + a^2) : ℕ) : ℝ)
            + ((2*n*(b^2*n + a^2) - n*(2*b^2*w + a^2) : ℕ) : ℝ)
            ≥ ((2*n*(b^2*n + a^2) : ℕ) : ℝ) := by
          have h3 : n*(2*b^2*w + a^2) + (2*n*(b^2*n + a^2) - n*(2*b^2*w + a^2))
              ≥ 2*n*(b^2*n + a^2) := by omega
          exact_mod_cast h3
        linarith
    rw [min_eq_left hge]
    norm_num
  · rw [if_neg hcond]
    push_neg at hcond
    obtain ⟨hc1, hc2⟩ := hcond
    have hlt : (1 : ℝ) > ((wilsonCenter ((a : ℚ)/b) w n : ℚ) : ℝ)
        + Real.sqrt (((wilsonMsq ((a : ℚ)/b) w n : ℚ) : ℝ)) := by
      rw [hCen, hMz, div_add_div_same, gt_iff_lt, div_lt_one (by positivity)]
      have h1 : Real.sqrt ((a^2*(4*b^2*w*(n - w) + a^2*n) * n : ℕ))
          < ((2*n*(b^2*n + a^2) - n*(2*b^2*w + a^2) : ℕ) : ℝ) := by
        refine real_sqrt_lt_of_lt_sq ?_ ?_
        · have : 0 < 2*n*(b^2*n + a^2) - n*(2*b^2*w + a^2) := by omega
          exact_mod_cast this
        · exact_mod_cast hc2
      have h2 : ((2*n*(b^2*n + a^2) - n*(2*b^2*w + a^2) : ℕ) : ℝ)
          + ((n*(2*b^2*w + a^2) : ℕ) : ℝ) = ((2*n*(b^2*n + a^2) : ℕ) : ℝ) := by
        have h3 : 2*n*(b^2*n + a^2) - n*(2*b^2*w + a^2) + n*(2*b^2*w + a^2)
            = 2*n*(b^2*n + a^2) := by omega
        exact_mod_cast h3
      linarith
    rw [min_eq_right hlt.le]
    have hXcast : ((10^8 * (a^2*(4*b^2*w*(n - w) + a^2*n)*n) : ℕ) : ℝ)
        = (10^4 : ℝ)^2 * ((a^2*(4*b^2*w*(n - w) + a^2*n) * n : ℕ) : ℝ) := by
      push_cast
      ring
    have hXs : Real.sqrt ((10^8 * (a^2*(4*b^2*w*(n - w) + a^2*n)*n) : ℕ))
        = (10^4 : ℝ) * Real.sqrt ((a^2*(4*b^2*w*(n - w) + a^2*n) * n : ℕ)) := by
      rw [hXcast, Real.sqrt_mul (by positivity), Real.sqrt_sq (by positivity)]
    have harg : (10^4 : ℝ) * (((wilsonCenter ((a : ℚ)/b) w n : ℚ) : ℝ)
          + Real.sqrt (((wilsonMsq ((a : ℚ)/b) w n : ℚ) : ℝ))) + 1/2
        = (((10^4*(n*(2*b^2*w + a^2)) + n*(b^2*n + a^2) : ℕ) : ℝ)
            + Real.sqrt ((10^8 * (a^2*(4*b^2*w*(n - w) + a^2*n)*n) : ℕ)))
          / ((2*n*(b^2*n + a^2) : ℕ) : ℝ) := by
      rw [hCen, hMz, hXs]
      have hm0 : ((2*n*(b^2*n + a^2) : ℕ) : ℝ) ≠ 0 := by positivity
      field_simp
      ring
    rw [harg]
    have hf1 : ((natSqrt (10^8 * (a^2*(4*b^2*w*(n - w) + a^2*n)*n)) : ℕ) : ℝ)
        ≤ Real.sqrt ((10^8 * (a^2*(4*b^2*w*(n - w) + a^2*n)*n) : ℕ)) :=
      natSqrt_le_real _
    have hf2 : Real.sqrt ((10^8 * (a^2*(4*b^2*w*(n - w) + a^2*n)*n) : ℕ))
        < ((natSqrt (10^8 * (a^2*(4*b^2*w*(n - w) + a^2*n)*n)) : ℕ) : ℝ) + 1 :=
      real_lt_natSqrt_succ _
    have hkey := natDiv_add_eq_floor
      (10^4*(n*(2*b^2*w + a^2)) + n*(b^2*n + a^2))
      (natSqrt (10^8 * (a^2*(4*b^2*w*(n - w) + a^2*n)*n)))
      (2*n*(b^2*n + a^2)) hm
      (Real.sqrt ((10^8 * (a^2*(4*b^2*w*(n - w) + a^2*n)*n) : ℕ)))
      hf1 hf2
    rw [← hkey]
    simp only [Rat.cast_div, Rat.cast_natCast, Rat.cast_pow, Rat.cast_ofNat,
      Int.cast_natCast]

lemma wilson_bracket (a b w n : ℕ) (ha : 0 < a) (hb : 0 < b) (hn : 0 < n)
    (hw : w ≤ n) :
    |((wilsonCenter ((a : ℚ)/b) w n : ℚ) : ℝ) - (w : ℝ)/n|
      ≤ Real.sqrt (((wilsonMsq ((a : ℚ)/b) w n : ℚ) : ℝ)) := by
  have hCen : ((wilsonCenter ((a : ℚ)/b) w n : ℚ) : ℝ)
      = ((n*(2*b^2*w + a^2) : ℕ) : ℝ) / ((2*n*(b^2*n + a^2) : ℕ) : ℝ) := by
    rw [wilsonCenter_core a b w n hb hn]
    push_cast
    ring
  have hMq : ((wilsonMsq ((a : ℚ)/b) w n : ℚ) : ℝ)
      = ((a^2*(4*b^2*w*(n - w) + a^2*n) * n : ℕ) : ℝ)
        / ((2*n*(b^2*n + a^2) : ℕ) : ℝ)^2 := by
    rw [wilsonMsq_core a b w n hb hn hw]
    push_cast
    ring
  have hNW : (0:ℝ) ≤ (n : ℝ) - w := by
    have := (Nat.cast_le (α := ℝ)).mpr hw
    linarith
  have hdiff : ((wilsonCenter ((a : ℚ)/b) w n : ℚ) : ℝ) - (w : ℝ)/n
      = (((n*(2*b^2*w + a^2) : ℕ) : ℝ) * n
          - (w : ℝ) * ((2*n*(b^2*n + a^2) : ℕ) : ℝ))
        / (((2*n*(b^2*n + a^2) : ℕ) : ℝ) * n) := by
    rw [hCen]
    have h1 : ((2*n*(b^2*n + a^2) : ℕ) : ℝ) ≠ 0 := by positivity
    have h2 : ((n : ℝ)) ≠ 0 := by positivity
    field_simp
    ring
  have h1 : (((wilsonCenter ((a : ℚ)/b) w n : ℚ) : ℝ) - (w : ℝ)/n)^2
      ≤ ((wilsonMsq ((a : ℚ)/b) w n : ℚ) : ℝ) := by
    rw [hdiff, hMq, div_pow, div_le_div_iff (by positivity) (by positivity)]
    have key : ((a:ℝ)^2*(4*(b:ℝ)^2*w*((n:ℝ) - w) + (a:ℝ)^2*n) * n) * (n:ℝ)^2
          - (((n:ℝ)*(2*(b:ℝ)^2*w + (a:ℝ)^2)) * n
              - (w:ℝ) * (2*(n:ℝ)*((b:ℝ)^2*n + (a:ℝ)^2)))^2
        = (4*(a:ℝ)^2*(w:ℝ)*(n:ℝ)^2*((b:ℝ)^2*n + (a:ℝ)^2)) * ((n:ℝ) - w) := by
      ring
    have h4 : (0:ℝ) ≤ (4*(a:ℝ)^2*(w:ℝ)*(n:ℝ)^2*((b:ℝ)^2*n + (a:ℝ)^2)) * ((n:ℝ) - w) :=
      mul_nonneg (by positivity) hNW
    push_cast [Nat.cast_sub hw]
    nlinarith [key, h4]
  calc |((wilsonCenter ((a : ℚ)/b) w n : ℚ) : ℝ) - (w : ℝ)/n|
      = Real.sqrt ((((wilsonCenter ((a : ℚ)/b) w n : ℚ) : ℝ) - (w : ℝ)/n)^2) :=
        (Real.sqrt_sq_eq_abs _).symm
    _ ≤ Real.sqrt (((wilsonMsq ((a : ℚ)/b) w n : ℚ) : ℝ)) := Real.sqrt_le_sqrt h1

/-- The float64 value of `norm.ppf(0.975)` (1.959963984540054), the `z` the
code computes for the default `confidence = 0.95`, as an exact rational. -/
def z95 : ℚ := 1959963984540054/1000000000000000

lemma z95_eq : ((1959963984540054 : ℕ) : ℚ) / ((1000000000000000 : ℕ) : ℚ) = z95 := by
  norm_num [z95]

/-- Claim C1 (amended).  For all `wins ≤ total`: the interval returned by
`wilson_confidence_interval` satisfies `0 ≤ lower ≤ upper ≤ 1`; for
`total = 0` it is exactly `(0, 0)`; and for `total > 0` the unrounded
clamped interval `[max 0 (center - margin), min 1 (center + margin)]`
brackets `wins/total`, while the returned 4-decimal rounded bounds bracket
it within half a rounding step: `lower ≤ wins/total + 1/20000` and
`wins/total ≤ upper + 1/20000`.  (The unamended bracketing
`lower ≤ wins/total ≤ upper` of the rounded bounds is refuted by
`wilson_round_crosses_p`.) -/
theorem wilson_interval_bounds (wins total : ℕ) (hw : wins ≤ total) :
    (total = 0 → wilson_confidence_interval wins total = (0, 0)) ∧
    (0 ≤ (wilson_confidence_interval wins total).1 ∧
      (wilson_confidence_interval wins total).1
        ≤ (wilson_confidence_interval wins total).2 ∧
      (wilson_confidence_interval wins total).2 ≤ 1) ∧
    (0 < total →
      max 0 (((wilsonCenter z95 wins total : ℚ) : ℝ)
          - Real.sqrt (((wilsonMsq z95 wins total : ℚ) : ℝ))) ≤ (wins : ℝ)/total ∧
      (wins : ℝ)/total ≤ min 1 (((wilsonCenter z95 wins total : ℚ) : ℝ)
          + Real.sqrt (((wilsonMsq z95 wins total : ℚ) : ℝ))) ∧
      (((wilson_confidence_interval wins total).1 : ℚ) : ℝ)
          ≤ (wins : ℝ)/total + 1/20000 ∧
      (wins : ℝ)/total
          ≤ (((wilson_confidence_interval wins total).2 : ℚ) : ℝ) + 1/20000) := by
  rcases Nat.eq_zero_or_pos total with h0 | hpos
  · subst h0
    refine ⟨fun _ => rfl, ?_, ?_⟩
    · simp [wilson_confidence_interval, wilsonCore]
    · intro h
      exact absurd h (lt_irrefl 0)
  · have ha : 0 < 1959963984540054 := by norm_num
    have hb : 0 < 1000000000000000 := by norm_num
    have hfst := wilsonCore_fst 1959963984540054 1000000000000000 wins total ha hb hpos hw
    have hsnd := wilsonCore_snd 1959963984540054 1000000000000000 wins total ha hb hpos hw
    rw [z95_eq] at hfst hsnd
    have hbr := wilson_bracket 1959963984540054 1000000000000000 wins total ha hb hpos hw
    rw [z95_eq] at hbr
    rw [abs_le] at hbr
    obtain ⟨hbr1, hbr2⟩ := hbr
    have hp0 : (0:ℝ) ≤ (wins : ℝ)/total := by positivity
    have hp1 : (wins : ℝ)/total ≤ 1 := by
      rw [div_le_one (by positivity)]
      exact_mod_cast hw
    have hM0 : (0:ℝ) ≤ Real.sqrt (((wilsonMsq z95 wins total : ℚ) : ℝ)) :=
      Real.sqrt_nonneg _
    set C : ℝ := ((wilsonCenter z95 wins total : ℚ) : ℝ) with hCdef
    set M : ℝ := Real.sqrt (((wilsonMsq z95 wins total : ℚ) : ℝ)) with hMdef
    have hlowp : max 0 (C - M) ≤ (wins : ℝ)/total := by
      apply max_le hp0
      linarith
    have hhighp : (wins : ℝ)/total ≤ min 1 (C + M) := by
      apply le_min hp1
      linarith
    have hL : (((wilson_confidence_interval wins total).1 : ℚ) : ℝ)
        = ((⌊(10^4 : ℝ) * max 0 (C - M) + 1/2⌋ : ℤ) : ℝ) / 10^4 := hfst
    have hU : (((wilson_confidence_interval wins total).2 : ℚ) : ℝ)
        = ((⌊(10^4 : ℝ) * min 1 (C + M) + 1/2⌋ : ℤ) : ℝ) / 10^4 := hsnd
    have hfloorL1 : ((⌊(10^4 : ℝ) * max 0 (C - M) + 1/2⌋ : ℤ) : ℝ)
        ≤ (10^4 : ℝ) * max 0 (C - M) + 1/2 := Int.floor_le _
    have hfloorL0 : (0 : ℤ) ≤ ⌊(10^4 : ℝ) * max 0 (C - M) + 1/2⌋ := by
      apply Int.floor_nonneg.mpr
      have : (0:ℝ) ≤ max 0 (C - M) := le_max_left _ _
      nlinarith [this]
    have hmono : ⌊(10^4 : ℝ) * max 0 (C - M) + 1/2⌋
        ≤ ⌊(10^4 : ℝ) * min 1 (C + M) + 1/2⌋ := by
      apply Int.floor_mono
      have : max 0 (C - M) ≤ min 1 (C + M) := le_trans hlowp hhighp
      nlinarith [this]
    have hU1 : ⌊(10^4 : ℝ) * min 1 (C + M) + 1/2⌋ ≤ 10^4 := by
      have h1 : min 1 (C + M) ≤ 1 := min_le_left _ _
      have h2 : (10^4 : ℝ) * min 1 (C + M) + 1/2 ≤ 10^4 + 1/2 := by nlinarith [h1]
      calc ⌊(10^4 : ℝ) * min 1 (C + M) + 1/2⌋ ≤ ⌊(10^4 : ℝ) + 1/2⌋ :=
            Int.floor_mono h2
        _ = 10^4 := by norm_num
    have hUlt : (10^4 : ℝ) * min 1 (C + M) + 1/2
        < ((⌊(10^4 : ℝ) * min 1 (C + M) + 1/2⌋ : ℤ) : ℝ) + 1 := Int.lt_floor_add_one _
    refine ⟨fun h => absurd h hpos.ne', ⟨?_, ?_, ?_⟩, fun _ => ⟨hlowp, hhighp, ?_, ?_⟩⟩
    · have : (0:ℝ) ≤ (((wilson_confidence_interval wins total).1 : ℚ) : ℝ) := by
        rw [hL]
        have : (0:ℝ) ≤ ((⌊(10^4 : ℝ) * max 0 (C - M) + 1/2⌋ : ℤ) : ℝ) := by
          exact_mod_cast hfloorL0
        positivity
      exact_mod_cast this
    · have : (((wilson_confidence_interval wins total).1 : ℚ) : ℝ)
          ≤ (((wilson_confidence_interval wins total).2 : ℚ) : ℝ) := by
        rw [hL, hU]
        have : ((⌊(10^4 : ℝ) * max 0 (C - M) + 1/2⌋ : ℤ) : ℝ)
            ≤ ((⌊(10^4 : ℝ) * min 1 (C + M) + 1/2⌋ : ℤ) : ℝ) := by
          exact_mod_cast hmono
        linarith
      exact_mod_cast this
    · have : (((wilson_confidence_interval wins total).2 : ℚ) : ℝ) ≤ 1 := by
        rw [hU]
        have h3 : ((⌊(10^4 : ℝ) * min 1 (C + M) + 1/2⌋ : ℤ) : ℝ) ≤ ((10^4 : ℤ) : ℝ) := by
          exact_mod_cast hU1
        push_cast at h3
        linarith
      exact_mod_cast this
    · rw [hL]
      have h5 : max 0 (C - M) ≤ (wins : ℝ)/total := hlowp
      nlinarith [hfloorL1, h5]
    · rw [hU]
      have h6 : (wins : ℝ)/total ≤ min 1 (C + M) := hhighp
      nlinarith [hUlt, h6]

/-- Counterexample to the unamended claim C1: at `wins = 8`,
`total = 81000` the returned rounded lower bound is `0.0001`, which is
strictly greater than `wins/total = 8/81000 ≈ 0.0000988`: the 4-decimal
rounding can push the lower bound above the observed proportion. -/
theorem wilson_round_crosses_p :
    ((8 : ℚ)/81000) < (wilson_confidence_interval 8 81000).1 := by
  have hceil : ceilSqrtNat 90326170915247997276940665432844127497295508867355535062794919041600000000000000 = 9504008149999030660392513683462321781341 := by decide
  unfold wilson_confidence_interval wilsonCore
  norm_num [hceil]

/-- Witness for `wilson_interval_bounds` at `wins = 81`, `total = 100`. -/
theorem wilson_interval_bounds_witness :
    81 ≤ 100 ∧
    ((100 = 0 → wilson_confidence_interval 81 100 = (0, 0)) ∧
      (0 ≤ (wilson_confidence_interval 81 100).1 ∧
        (wilson_confidence_interval 81 100).1 ≤ (wilson_confidence_interval 81 100).2 ∧
        (wilson_confidence_interval 81 100).2 ≤ 1) ∧
      (0 < 100 →
        max 0 (((wilsonCenter z95 81 100 : ℚ) : ℝ)
            - Real.sqrt (((wilsonMsq z95 81 100 : ℚ) : ℝ))) ≤ (81 : ℝ)/100 ∧
        (81 : ℝ)/100 ≤ min 1 (((wilsonCenter z95 81 100 : ℚ) : ℝ)
            + Real.sqrt (((wilsonMsq z95 81 100 : ℚ) : ℝ))) ∧
        (((wilson_confidence_interval 81 100).1 : ℚ) : ℝ) ≤ (81 : ℝ)/100 + 1/20000 ∧
        (81 : ℝ)/100
            ≤ (((wilson_confidence_interval 81 100).2 : ℚ) : ℝ) + 1/20000)) :=
  ⟨by norm_num, wilson_interval_bounds 81 100 (by norm_num)⟩

/-!
Embeddings from `src/utils/statistics.py`: `expected_wr_average`
(lines 92-117), `bonferroni_correction` (lines 184-222), and from
`src/analyzers/teammate_synergy.py`: `calculate_synergy_score`
(lines 58-72), the record shape of the per-teammate synergy dictionaries,
and the canonical orientation of `cache_synergy_stats` (lines 253-343).
-/

/-- Embedding of `expected_wr_average(wr_a, wr_b)`:
`round((wr_a + wr_b) / 2.0, 4)`. -/
def expected_wr_average (wr_a wr_b : ℚ) : ℚ := roundTo 4 ((wr_a + wr_b) / 2)

/-- Embedding of `calculate_synergy_score(actual_wr, expected_wr)`:
`round(actual_wr - expected_wr, 4)`. -/
def calculate_synergy_score (actual_wr expected_wr : ℚ) : ℚ :=
  roundTo 4 (actual_wr - expected_wr)

/-- Shape of the per-teammate synergy dictionaries built by
`analyze_teammate_synergies` (lines 451-466); the last two fields are the
ones added later by `bonferroni_correction`. -/
structure Synergy where
  teammate : String
  games_together : ℕ
  wins_together : ℕ
  actual_win_rate : ℚ
  expected_win_rate : ℚ
  synergy_score : ℚ
  ci_lower : ℚ
  ci_upper : ℚ
  p_value : ℚ
  significant : Bool
  confidence_level : String
  sample_size_warning : Option String
  significant_bonferroni : Option Bool := none
  bonferroni_alpha : Option ℚ := none
deriving DecidableEq

/-- Embedding of `bonferroni_correction(synergies, alpha)`: for an empty
batch the input is returned unchanged; otherwise
`corrected_alpha = alpha / len(synergies)` and every record receives
`significant_bonferroni = (p_value < corrected_alpha)` and
`bonferroni_alpha = round(corrected_alpha, 6)` (the Python code mutates the
records in place; the embedding returns the updated records in order). -/
def bonferroni_correction (synergies : List Synergy) (alpha : ℚ) : List Synergy :=
  if synergies.length = 0 then synergies
  else
    let corrected_alpha := alpha / (synergies.length : ℚ)
    synergies.map fun s =>
      { s with
        significant_bonferroni := some (decide (s.p_value < corrected_alpha)),
        bonferroni_alpha := some (roundTo 6 corrected_alpha) }

/-- A concrete synergy record, used to instantiate the list-level theorems. -/
def sampleSynergy : Synergy :=
  { teammate := "Thor", games_together := 60, wins_together := 36,
    actual_win_rate := 3/5, expected_win_rate := 1/2, synergy_score := 1/10,
    ci_lower := 473/1000, ci_upper := 7138/10000, p_value := 3/250,
    significant := true, confidence_level := "low",
    sample_size_warning := none }

/-- Claim C2 (amended).  For a nonempty batch of `N` records,
`bonferroni_correction` flags every record with
`significant_bonferroni = (p_value < alpha/N)` against the exact
`alpha/N`, but the stored threshold field is `bonferroni_alpha =
round(alpha/N, 6)`, the six-decimal rounding of `alpha/N` (equal to
`alpha/N` only when that quotient has at most six decimal places — in
particular a batch of size 1 stores `round(alpha, 6)`); an empty batch is
returned unchanged. -/
theorem bonferroni_correction_fields (l : List Synergy) (alpha : ℚ) :
    (l = [] → bonferroni_correction l alpha = l) ∧
    ∀ s ∈ bonferroni_correction l alpha,
      s.bonferroni_alpha = some (roundTo 6 (alpha / (l.length : ℚ))) ∧
      s.significant_bonferroni = some (decide (s.p_value < alpha / (l.length : ℚ))) := by
  constructor
  · intro h
    subst h
    rfl
  · intro s hs
    rcases l with _ | ⟨t, ts⟩
    · simp [bonferroni_correction] at hs
    · simp only [bonferroni_correction, List.length_cons, if_neg (Nat.succ_ne_zero _),
        List.mem_map] at hs
      obtain ⟨u, _, hu⟩ := hs
      subst hu
      exact ⟨rfl, rfl⟩

/-- Counterexample to the unamended claim C2: with batch size `N = 3` and
`alpha = 0.05` the stored `bonferroni_alpha` is `round(0.05/3, 6) =
0.016667`, which differs from `alpha/N = 1/60 = 0.01666...`. -/
theorem bonferroni_alpha_is_rounded :
    ((bonferroni_correction [sampleSynergy, sampleSynergy, sampleSynergy] (1/20)).map
        (fun s => s.bonferroni_alpha))
      = [some (16667/1000000), some (16667/1000000), some (16667/1000000)] ∧
    (16667/1000000 : ℚ) ≠ (1/20) / 3 := by
  constructor
  · simp only [bonferroni_correction, roundTo]
    norm_num
  · norm_num

/-- The record of `sampleSynergy` after a singleton-batch correction at
`alpha = 0.05`. -/
def sampleSynergyCorrected : Synergy :=
  { sampleSynergy with
      significant_bonferroni := some true,
      bonferroni_alpha := some (1/20) }

/-- Witness for `bonferroni_correction_fields`, on a singleton batch at
`alpha = 0.05`. -/
theorem bonferroni_correction_fields_witness :
    sampleSynergyCorrected ∈ bonferroni_correction [sampleSynergy] (1/20) ∧
    (sampleSynergyCorrected.bonferroni_alpha
        = some (roundTo 6 ((1/20) / (([sampleSynergy] : List Synergy).length : ℚ))) ∧
      sampleSynergyCorrected.significant_bonferroni
        = some (decide (sampleSynergyCorrected.p_value
          < (1/20) / (([sampleSynergy] : List Synergy).length : ℚ)))) := by
  have hm : sampleSynergyCorrected ∈ bonferroni_correction [sampleSynergy] (1/20) := by
    simp only [bonferroni_correction, roundTo, sampleSynergy, sampleSynergyCorrected]
    norm_num
  exact ⟨hm, (bonferroni_correction_fields [sampleSynergy] (1/20)).2 _ hm⟩

/-- Claim C10.  The Bonferroni correction is a frame-respecting update: the
output has the same length (the Python code returns the very same list it
mutated in place), and record by record every pre-existing field —
`teammate`, `games_together`, `wins_together`, `actual_win_rate`,
`expected_win_rate`, `synergy_score`, confidence interval, `p_value`, the
uncorrected `significant`, `confidence_level`, `sample_size_warning` — is
unchanged; only `significant_bonferroni` and `bonferroni_alpha` are
written. -/
theorem bonferroni_correction_frame (l : List Synergy) (alpha : ℚ) :
    (bonferroni_correction l alpha).length = l.length ∧
    List.Forall₂ (fun s t =>
      t.teammate = s.teammate ∧ t.games_together = s.games_together ∧
      t.wins_together = s.wins_together ∧ t.actual_win_rate = s.actual_win_rate ∧
      t.expected_win_rate = s.expected_win_rate ∧ t.synergy_score = s.synergy_score ∧
      t.ci_lower = s.ci_lower ∧ t.ci_upper = s.ci_upper ∧
      t.p_value = s.p_value ∧ t.significant = s.significant ∧
      t.confidence_level = s.confidence_level ∧
      t.sample_size_warning = s.sample_size_warning)
      l (bonferroni_correction l alpha) := by
  unfold bonferroni_correction
  split_ifs with h
  · refine ⟨rfl, ?_⟩
    rw [List.length_eq_zero] at h
    subst h
    exact List.Forall₂.nil
  · constructor
    · simp
    · simp only []
      rw [List.forall₂_map_right_iff]
      rw [List.forall₂_same]
      intro x _
      exact ⟨rfl, rfl, rfl, rfl, rfl, rfl, rfl, rfl, rfl, rfl, rfl, rfl⟩

/-- Claim C7 (amended).  The average baseline model is symmetric for all
inputs, and on equal inputs returns `round(x, 4)` — which equals `x`
exactly when `x` is an integer multiple of `10^(-4)` (as every stored
4-decimal win rate is), but not for general rationals. -/
theorem expected_wr_average_props :
    (∀ a b : ℚ, expected_wr_average a b = expected_wr_average b a) ∧
    (∀ x : ℚ, expected_wr_average x x = roundTo 4 x) ∧
    (∀ x : ℚ, (∃ z : ℤ, x = (z : ℚ)/10^4) → expected_wr_average x x = x) := by
  refine ⟨?_, ?_, ?_⟩
  · intro a b
    unfold expected_wr_average
    rw [add_comm]
  · intro x
    unfold expected_wr_average
    congr 1
    ring
  · intro x ⟨z, hz⟩
    unfold expected_wr_average
    have h1 : (x + x) / 2 = x := by ring
    rw [h1, hz]
    exact roundTo_int_div 4 z

/-- Counterexample to the unamended claim C7: `average(1/3, 1/3)` is
`round(1/3, 4) = 0.3333 ≠ 1/3`, so idempotence fails off the 4-decimal
grid. -/
theorem expected_wr_average_not_idempotent :
    expected_wr_average (1/3) (1/3) ≠ 1/3 := by
  unfold expected_wr_average roundTo
  norm_num

/-- Witness for `expected_wr_average_props` at `x = 1/8 = 0.125`. -/
theorem expected_wr_average_props_witness :
    (∃ z : ℤ, (1/8 : ℚ) = (z : ℚ)/10^4) ∧ expected_wr_average (1/8) (1/8) = 1/8 :=
  ⟨⟨1250, by norm_num⟩,
    expected_wr_average_props.2.2 (1/8) ⟨1250, by norm_num⟩⟩

/-- The canonical orientation and upsert key of `cache_synergy_stats`
(`teammate_synergy.py` lines 290-292 and the `ON CONFLICT` clause at line
313): the pair is swapped so that `hero_a < hero_b` alphabetically, and the
conflict key is `(hero_a, hero_b, COALESCE(rank_tier, ''))`. -/
def synergyCacheKey (hero_a hero_b : String) (rank_tier : Option String) :
    String × String × String :=
  if hero_b < hero_a then (hero_b, hero_a, rank_tier.getD "")
  else (hero_a, hero_b, rank_tier.getD "")

/-- Claim C9.  Persisting a synergy from either perspective of an unordered
pair writes to the same single logical key (`synergyCacheKey` is symmetric
in the two heroes), and for distinct heroes the stored key satisfies the
invariant `hero_a < hero_b` in the total (alphabetical) order on strings. -/
theorem synergyCacheKey_canonical (a b : String) (t : Option String) :
    synergyCacheKey a b t = synergyCacheKey b a t ∧
    (a ≠ b → (synergyCacheKey a b t).1 < (synergyCacheKey a b t).2.1) := by
  unfold synergyCacheKey
  rcases lt_trichotomy a b with h | h | h
  · rw [if_neg (asymm h), if_pos h]
    exact ⟨rfl, fun _ => h⟩
  · subst h
    refine ⟨rfl, fun hne => absurd rfl hne⟩
  · rw [if_pos h, if_neg (asymm h)]
    exact ⟨rfl, fun _ => h⟩

/-- Witness for `synergyCacheKey_canonical` on the distinct pair
`("Thor", "Hulk")` with tier `"Gold"`. -/
theorem synergyCacheKey_canonical_witness :
    ("Thor" : String) ≠ "Hulk" ∧
    (synergyCacheKey "Thor" "Hulk" (some "Gold")).1
      < (synergyCacheKey "Thor" "Hulk" (some "Gold")).2.1 := by
  have hne : ("Thor" : String) ≠ "Hulk" := by simp
  exact ⟨hne, (synergyCacheKey_canonical "Thor" "Hulk" (some "Gold")).2 hne⟩

/-!
Embedding of `src/analyzers/character_winrate.py`: one match participation
row (`won`, `rank_tier`), grouping by rank (`group_matches_by_rank`,
lines 48-66, a `defaultdict` accumulating wins/losses in first-seen order),
`calculate_win_rate_stats` (lines 25-45), and the per-hero body of
`analyze_character_win_rates` (lines 207-252): skip the hero when it has
fewer than `min_games_overall` matches; keep per-rank stats only for ranks
with at least `min_games_per_rank` games; compute the overall record from
the sums over all rank groups.
-/

/-- One row of `query_hero_matches` in `character_winrate.py`: the hero won
the match, at the given player rank tier. -/
structure RankMatch where
  won : Bool
  rank_tier : String

/-- One step of the `defaultdict` accumulation of
`group_matches_by_rank`: add one observation for `rank` to the ordered
association list of `(rank, wins, losses)` entries. -/
def bumpRank : List (String × ℕ × ℕ) → String → Bool → List (String × ℕ × ℕ)
  | [], rank, won => [(rank, if won then 1 else 0, if won then 0 else 1)]
  | (r, wi, lo) :: rest, rank, won =>
    if r = rank then
      (r, (if won then wi+1 else wi), (if won then lo else lo+1)) :: rest
    else (r, wi, lo) :: bumpRank rest rank won

/-- Embedding of `group_matches_by_rank(matches)`. -/
def group_matches_by_rank (ms : List RankMatch) : List (String × ℕ × ℕ) :=
  ms.foldl (fun acc mr => bumpRank acc mr.rank_tier mr.won) []

/-- Shape of the dictionaries returned by `calculate_win_rate_stats`. -/
structure WinRateStats where
  total_games : ℕ
  wins : ℕ
  losses : ℕ
  win_rate : ℚ
  ci_lower : ℚ
  ci_upper : ℚ
deriving DecidableEq

/-- Embedding of `calculate_win_rate_stats(wins, total)`. -/
def calculate_win_rate_stats (wins total : ℕ) : WinRateStats :=
  { total_games := total,
    wins := wins,
    losses := total - wins,
    win_rate := roundTo 4 (if 0 < total then (wins : ℚ)/total else 0),
    ci_lower := (wilson_confidence_interval wins total).1,
    ci_upper := (wilson_confidence_interval wins total).2 }

/-- Per-hero result record of `analyze_character_win_rates`. -/
structure CharacterResult where
  hero : String
  overall : WinRateStats
  by_rank : List (String × WinRateStats)

/-- Embedding of the per-hero body of `analyze_character_win_rates`
(lines 207-252): `none` models the `continue` that skips heroes below
`min_games_overall`. -/
def analyze_character_win_rates (hero : String) (ms : List RankMatch)
    (min_games_per_rank min_games_overall : ℕ) : Option CharacterResult :=
  if ms.length < min_games_overall then none
  else
    let by_rank := group_matches_by_rank ms
    let rank_stats := (by_rank.filter fun e => ¬ (e.2.1 + e.2.2 < min_games_per_rank)).map
        fun e => (e.1, calculate_win_rate_stats e.2.1 (e.2.1 + e.2.2))
    let total_wins := (by_rank.map fun e => e.2.1).sum
    let total_losses := (by_rank.map fun e => e.2.2).sum
    some { hero := hero,
           overall := calculate_win_rate_stats total_wins (total_wins + total_losses),
           by_rank := rank_stats }

lemma bumpRank_wins_sum (acc : List (String × ℕ × ℕ)) (rank : String) (won : Bool) :
    ((bumpRank acc rank won).map fun e => e.2.1).sum
      = ((acc.map fun e => e.2.1).sum) + (if won then 1 else 0) := by
  induction acc with
  | nil => cases won <;> simp [bumpRank]
  | cons hd tl ih =>
    obtain ⟨r, wi, lo⟩ := hd
    by_cases h : r = rank
    · cases won <;> simp [bumpRank, h] <;> omega
    · simp [bumpRank, h, ih]
      omega

lemma bumpRank_losses_sum (acc : List (String × ℕ × ℕ)) (rank : String) (won : Bool) :
    ((bumpRank acc rank won).map fun e => e.2.2).sum
      = ((acc.map fun e => e.2.2).sum) + (if won then 0 else 1) := by
  induction acc with
  | nil => cases won <;> simp [bumpRank]
  | cons hd tl ih =>
    obtain ⟨r, wi, lo⟩ := hd
    by_cases h : r = rank
    · cases won <;> simp [bumpRank, h] <;> omega
    · simp [bumpRank, h, ih]
      omega

lemma group_wins_sum (ms : List RankMatch) :
    ((group_matches_by_rank ms).map fun e => e.2.1).sum
      = ms.countP (fun m => m.won) := by
  unfold group_matches_by_rank
  suffices h : ∀ acc : List (String × ℕ × ℕ),
      ((ms.foldl (fun acc mr => bumpRank acc mr.rank_tier mr.won) acc).map
          fun e => e.2.1).sum
        = ((acc.map fun e => e.2.1).sum) + ms.countP (fun m => m.won) by
    simpa using h []
  induction ms with
  | nil => intro acc; simp
  | cons hd tl ih =>
    intro acc
    simp only [List.foldl_cons, List.countP_cons]
    rw [ih, bumpRank_wins_sum]
    cases hwon : hd.won <;> simp [hwon] <;> omega

lemma group_losses_sum (ms : List RankMatch) :
    ((group_matches_by_rank ms).map fun e => e.2.2).sum
      = ms.countP (fun m => !m.won) := by
  unfold group_matches_by_rank
  suffices h : ∀ acc : List (String × ℕ × ℕ),
      ((ms.foldl (fun acc mr => bumpRank acc mr.rank_tier mr.won) acc).map
          fun e => e.2.2).sum
        = ((acc.map fun e => e.2.2).sum) + ms.countP (fun m => !m.won) by
    simpa using h []
  induction ms with
  | nil => intro acc; simp
  | cons hd tl ih =>
    intro acc
    simp only [List.foldl_cons, List.countP_cons]
    rw [ih, bumpRank_losses_sum]
    cases hwon : hd.won <;> simp [hwon] <;> omega

lemma countP_won_add_not (ms : List RankMatch) :
    ms.countP (fun m => m.won) + ms.countP (fun m => !m.won)
      = ms.length := by
  induction ms with
  | nil => simp
  | cons hd tl ih =>
    simp only [List.countP_cons, List.length_cons]
    cases hwon : hd.won <;> simp [hwon] <;> omega

/-- Claim C4.  For every hero passing the overall minimum-games threshold,
the overall record is the union of all of that hero's tier observations:
`total_games` is the number of all matches, `wins` counts all won matches
(including matches in tiers dropped by the per-tier threshold), and the
overall record does not depend on `min_games_per_rank` at all — it is not a
weighted average of per-tier rates and not restricted to retained tiers. -/
theorem overall_counts_all_tiers (hero : String) (ms : List RankMatch)
    (min_games_per_rank min_games_overall : ℕ)
    (h : min_games_overall ≤ ms.length) :
    ∃ res, analyze_character_win_rates hero ms min_games_per_rank
        min_games_overall = some res ∧
      res.overall.total_games = ms.length ∧
      res.overall.wins = ms.countP (fun m => m.won) ∧
      res.overall.losses = ms.countP (fun m => !m.won) ∧
      ∀ min_games_per_rank2 : ℕ,
        (analyze_character_win_rates hero ms min_games_per_rank2
            min_games_overall).map (fun r => r.overall)
          = some res.overall := by
  have hnot : ¬ (ms.length < min_games_overall) := not_lt.mpr h
  refine ⟨_, by rw [analyze_character_win_rates, if_neg hnot], ?_, ?_, ?_, ?_⟩
  · simp only [analyze_character_win_rates, if_neg hnot, calculate_win_rate_stats]
    rw [group_wins_sum, group_losses_sum, countP_won_add_not]
  · simp only [analyze_character_win_rates, if_neg hnot, calculate_win_rate_stats]
    rw [group_wins_sum]
  · simp only [analyze_character_win_rates, if_neg hnot, calculate_win_rate_stats]
    rw [group_wins_sum, group_losses_sum]
    omega
  · intro minR2
    simp only [analyze_character_win_rates, if_neg hnot]
    rfl

/-- Witness for `overall_counts_all_tiers`: three matches, overall minimum 2,
per-rank minimum 30 (so every tier is dropped from the per-tier output, yet
the overall record still counts all three matches). -/
theorem overall_counts_all_tiers_witness :
    (2 : ℕ) ≤ ([⟨true, "Gold"⟩, ⟨false, "Silver"⟩, ⟨true, "Gold"⟩] : List RankMatch).length ∧
    (∃ res, analyze_character_win_rates "Hulk"
        [⟨true, "Gold"⟩, ⟨false, "Silver"⟩, ⟨true, "Gold"⟩] 30 2 = some res ∧
      res.overall.total_games
        = ([⟨true, "Gold"⟩, ⟨false, "Silver"⟩, ⟨true, "Gold"⟩] : List RankMatch).length ∧
      res.overall.wins
        = ([⟨true, "Gold"⟩, ⟨false, "Silver"⟩, ⟨true, "Gold"⟩] : List RankMatch).countP
            (fun m => m.won) ∧
      res.overall.losses
        = ([⟨true, "Gold"⟩, ⟨false, "Silver"⟩, ⟨true, "Gold"⟩] : List RankMatch).countP
            (fun m => !m.won) ∧
      ∀ min_games_per_rank2 : ℕ,
        (analyze_character_win_rates "Hulk"
            [⟨true, "Gold"⟩, ⟨false, "Silver"⟩, ⟨true, "Gold"⟩] min_games_per_rank2
            2).map (fun r => r.overall) = some res.overall) :=
  ⟨by simp,
    overall_counts_all_tiers "Hulk" [⟨true, "Gold"⟩, ⟨false, "Silver"⟩, ⟨true, "Gold"⟩]
      30 2 (by simp)⟩

/-!
Embedding of `calculate_required_sample_size` from `src/utils/statistics.py`
(lines 225-266).  The code computes

    n = ((z_alpha*sqrt(p0*(1-p0)) + z_beta*sqrt(p1*(1-p1))) / effect_size)**2
    return int(np.ceil(n))

with `p1 = p0 + effect_size`, `z_alpha = norm.ppf(1 - alpha/2)` and
`z_beta = norm.ppf(power)`.  The quantiles are modelled as exact rational
parameters `z_alpha`, `z_beta` (nonnegative on the intended domain
`alpha < 1`, `power ≥ 0.5`).  Squaring the numerator turns `n` into
`q + √M` with rational `q`, `M`, whose ceiling `ceilQAddSqrt` computes
exactly through integer square roots; `calculate_required_sample_size_eq`
proves the equality with the real-valued formula.
-/

lemma intDiv_sub_eq_floor (u : ℤ) (s : ℕ) (m : ℤ) (hm : 0 < m) (t : ℝ)
    (hts : t ≤ s) (hst : (s : ℝ) < t + 1) :
    (u - (s : ℤ)).ediv m = ⌊((u : ℝ) - t) / m⌋ := by
  have hmod : m * ((u - (s:ℤ)).ediv m) + (u - (s:ℤ)).emod m = u - (s:ℤ) :=
    Int.ediv_add_emod _ _
  have hr0 : 0 ≤ (u - (s:ℤ)).emod m := Int.emod_nonneg _ hm.ne'
  have hr1 : (u - (s:ℤ)).emod m < m := Int.emod_lt_of_pos _ hm
  have hmR : (0:ℝ) < (m:ℝ) := by exact_mod_cast hm
  have hlow : (((u - (s:ℤ)).ediv m : ℤ) : ℝ) ≤ ((u : ℝ) - t) / m := by
    rw [le_div_iff₀ hmR]
    have h1 : ((m * ((u - (s:ℤ)).ediv m) : ℤ) : ℝ) ≤ (u : ℝ) - (s:ℝ) := by
      have h2 : m * ((u - (s:ℤ)).ediv m) ≤ u - (s:ℤ) := by omega
      have h3 : ((m * ((u - (s:ℤ)).ediv m) : ℤ) : ℝ) ≤ ((u - (s:ℤ) : ℤ) : ℝ) := by
        exact_mod_cast h2
      push_cast at h3
      push_cast
      linarith
    push_cast at h1 ⊢
    nlinarith [h1]
  have hhigh : ((u : ℝ) - t) / m < ((u - (s:ℤ)).ediv m : ℤ) + 1 := by
    rw [div_lt_iff₀ hmR]
    have h1 : (u : ℝ) - (s:ℝ) ≤ ((m * ((u - (s:ℤ)).ediv m) : ℤ) : ℝ)
        + (((u - (s:ℤ)).emod m : ℤ) : ℝ) := by
      have h2 : u - (s:ℤ) ≤ m * ((u - (s:ℤ)).ediv m) + (u - (s:ℤ)).emod m := by omega
      have h3 : ((u - (s:ℤ) : ℤ) : ℝ)
          ≤ ((m * ((u - (s:ℤ)).ediv m) + (u - (s:ℤ)).emod m : ℤ) : ℝ) := by
        exact_mod_cast h2
      push_cast at h3
      push_cast
      linarith
    have h2 : (((u - (s:ℤ)).emod m : ℤ) : ℝ) ≤ (m:ℝ) - 1 := by
      have h3 : (u - (s:ℤ)).emod m ≤ m - 1 := by omega
      have h4 : (((u - (s:ℤ)).emod m : ℤ) : ℝ) ≤ ((m - 1 : ℤ) : ℝ) := by
        exact_mod_cast h3
      push_cast at h4
      linarith
    push_cast at h1 ⊢
    nlinarith [h1, h2]
  symm
  rw [Int.floor_eq_iff]
  constructor
  · exact_mod_cast hlow
  · push_cast
    exact_mod_cast hhigh

/-- Exact floor of `q - √M` for rationals `q` and `M ≥ 0`. -/
def floorQSubSqrt (q M : ℚ) : ℤ :=
  (q.num * (M.den : ℤ)
      - (ceilSqrtNat (q.den^2 * (M.num.toNat * M.den)) : ℤ)).ediv
    ((q.den : ℤ) * (M.den : ℤ))

/-- Exact ceiling of `q + √M` for rationals `q` and `M ≥ 0`. -/
def ceilQAddSqrt (q M : ℚ) : ℤ := - floorQSubSqrt (-q) M

lemma rat_cast_sqrt_decomp (M : ℚ) (hM : 0 ≤ M) :
    Real.sqrt ((M : ℚ) : ℝ)
      = Real.sqrt ((M.num.toNat * M.den : ℕ)) / (M.den : ℝ) := by
  have hd : (0:ℝ) < (M.den : ℝ) := by
    have := M.den_pos
    exact_mod_cast this
  have hnum : ((M.num.toNat : ℕ) : ℝ) = ((M.num : ℤ) : ℝ) := by
    exact_mod_cast Int.toNat_of_nonneg (Rat.num_nonneg.mpr hM)
  have hMcast : ((M : ℚ) : ℝ) = ((M.num.toNat * M.den : ℕ) : ℝ) / ((M.den : ℝ))^2 := by
    rw [Rat.cast_def]
    push_cast
    rw [hnum]
    field_simp
    ring
  rw [hMcast, Real.sqrt_div (by positivity), Real.sqrt_sq hd.le]

lemma floorQSubSqrt_eq (q M : ℚ) (hM : 0 ≤ M) :
    floorQSubSqrt q M = ⌊((q : ℚ) : ℝ) - Real.sqrt (((M : ℚ) : ℝ))⌋ := by
  unfold floorQSubSqrt
  have hqden : (0:ℝ) < (q.den : ℝ) := by
    have := q.den_pos
    exact_mod_cast this
  have hMden : (0:ℝ) < (M.den : ℝ) := by
    have := M.den_pos
    exact_mod_cast this
  have hm : (0:ℤ) < (q.den : ℤ) * (M.den : ℤ) := by
    have h1 := q.den_pos
    have h2 := M.den_pos
    positivity
  have hsq : Real.sqrt ((q.den^2 * (M.num.toNat * M.den) : ℕ))
      = (q.den : ℝ) * Real.sqrt ((M.num.toNat * M.den : ℕ)) := by
    have h1 : ((q.den^2 * (M.num.toNat * M.den) : ℕ) : ℝ)
        = ((q.den : ℝ))^2 * ((M.num.toNat * M.den : ℕ) : ℝ) := by
      push_cast
      ring
    rw [h1, Real.sqrt_mul (by positivity), Real.sqrt_sq hqden.le]
  have harg : ((q : ℚ) : ℝ) - Real.sqrt (((M : ℚ) : ℝ))
      = (((q.num * (M.den : ℤ)) : ℤ) - Real.sqrt ((q.den^2 * (M.num.toNat * M.den) : ℕ)))
        / (((q.den : ℤ) * (M.den : ℤ) : ℤ) : ℝ) := by
    rw [rat_cast_sqrt_decomp M hM, hsq, Rat.cast_def]
    push_cast
    field_simp
  rw [harg]
  exact intDiv_sub_eq_floor (q.num * (M.den : ℤ))
    (ceilSqrtNat (q.den^2 * (M.num.toNat * M.den)))
    ((q.den : ℤ) * (M.den : ℤ)) hm _
    (real_sqrt_le_ceilSqrtNat _)
    (ceilSqrtNat_lt_real_succ _)

lemma ceilQAddSqrt_eq (q M : ℚ) (hM : 0 ≤ M) :
    ceilQAddSqrt q M = ⌈((q : ℚ) : ℝ) + Real.sqrt (((M : ℚ) : ℝ))⌉ := by
  unfold ceilQAddSqrt
  rw [floorQSubSqrt_eq (-q) M hM]
  have h1 : ((-q : ℚ) : ℝ) - Real.sqrt (((M : ℚ) : ℝ))
      = -((((q : ℚ) : ℝ)) + Real.sqrt (((M : ℚ) : ℝ))) := by
    push_cast
    ring
  rw [h1, Int.floor_neg, neg_neg]

/-- Embedding of `calculate_required_sample_size(baseline_wr, effect_size,
alpha, power)`: the quantiles `z_alpha = norm.ppf(1 - alpha/2)` and
`z_beta = norm.ppf(power)` enter as exact rational parameters (intended
domain: both nonnegative).  Squaring the numerator of the code's `n` gives
`n = q + √M` with the rational `q` and `M` below, and the code returns
`int(np.ceil(n))`. -/
def calculate_required_sample_size (z_alpha z_beta baseline_wr effect_size : ℚ) : ℤ :=
  ceilQAddSqrt
    ((z_alpha^2 * (baseline_wr*(1 - baseline_wr))
        + z_beta^2 * ((baseline_wr + effect_size)*(1 - (baseline_wr + effect_size))))
      / effect_size^2)
    (4 * z_alpha^2 * z_beta^2 * (baseline_wr*(1 - baseline_wr))
        * ((baseline_wr + effect_size)*(1 - (baseline_wr + effect_size)))
      / effect_size^4)

lemma calculate_required_sample_size_eq (za zb p0 e : ℚ)
    (hza : 0 ≤ za) (hzb : 0 ≤ zb) (hp0 : 0 ≤ p0) (hp1 : p0 ≤ 1)
    (hq0 : 0 ≤ p0 + e) (hq1 : p0 + e ≤ 1) (he : 0 < e) :
    calculate_required_sample_size za zb p0 e
      = ⌈(((za : ℝ) * Real.sqrt (((p0 : ℝ))*(1 - (p0 : ℝ)))
            + (zb : ℝ) * Real.sqrt ((((p0 : ℝ)) + e)*(1 - ((p0 : ℝ) + e)))) / e)^2⌉ := by
  have hA : (0:ℝ) ≤ ((p0 : ℝ))*(1 - (p0 : ℝ)) := by
    have h1 : (0:ℝ) ≤ (p0 : ℝ) := by exact_mod_cast hp0
    have h2 : ((p0 : ℝ)) ≤ 1 := by exact_mod_cast hp1
    nlinarith
  have hB : (0:ℝ) ≤ (((p0 : ℝ)) + e)*(1 - ((p0 : ℝ) + e)) := by
    have h1 : (0:ℝ) ≤ (p0 : ℝ) + e := by exact_mod_cast hq0
    have h2 : ((p0 : ℝ)) + e ≤ 1 := by exact_mod_cast hq1
    nlinarith
  have hzaR : (0:ℝ) ≤ (za : ℝ) := by exact_mod_cast hza
  have hzbR : (0:ℝ) ≤ (zb : ℝ) := by exact_mod_cast hzb
  have heR : (0:ℝ) < (e : ℝ) := by exact_mod_cast he
  have hM : (0:ℚ) ≤ 4 * za^2 * zb^2 * (p0*(1 - p0)) * ((p0 + e)*(1 - (p0 + e))) / e^4 := by
    have hA' : (0:ℚ) ≤ p0*(1 - p0) := by nlinarith
    have hB' : (0:ℚ) ≤ (p0 + e)*(1 - (p0 + e)) := by nlinarith
    positivity
  unfold calculate_required_sample_size
  rw [ceilQAddSqrt_eq _ _ hM]
  congr 1
  have hsqM : Real.sqrt
      (((4 * za^2 * zb^2 * (p0*(1 - p0)) * ((p0 + e)*(1 - (p0 + e))) / e^4 : ℚ) : ℝ))
      = 2 * (za : ℝ) * zb
          * (Real.sqrt (((p0 : ℝ))*(1 - (p0 : ℝ)))
              * Real.sqrt ((((p0 : ℝ)) + e)*(1 - ((p0 : ℝ) + e)))) / (e : ℝ)^2 := by
    have hcast : (((4 * za^2 * zb^2 * (p0*(1 - p0)) * ((p0 + e)*(1 - (p0 + e))) / e^4
        : ℚ) : ℝ))
        = (2 * (za : ℝ) * zb / (e : ℝ)^2)^2
            * ((((p0 : ℝ))*(1 - (p0 : ℝ))) * ((((p0 : ℝ)) + e)*(1 - ((p0 : ℝ) + e)))) := by
      push_cast
      field_simp
      ring
    rw [hcast, Real.sqrt_mul (by positivity), Real.sqrt_sq (by positivity),
      Real.sqrt_mul hA]
    field_simp
  rw [hsqM]
  rw [div_pow, add_pow_two]
  rw [mul_pow, mul_pow, Real.sq_sqrt hA, Real.sq_sqrt hB]
  push_cast
  field_simp
  ring

/-- Integer floor of the square root of a nonnegative rational. -/
def floorSqrtQ (T : ℚ) : ℕ := natSqrt (T.num.toNat * T.den) / T.den

lemma floorSqrtQ_eq (T : ℚ) (hT : 0 ≤ T) :
    ((floorSqrtQ T : ℕ) : ℤ) = ⌊Real.sqrt (((T : ℚ) : ℝ))⌋ := by
  unfold floorSqrtQ
  rw [rat_cast_sqrt_decomp T hT]
  have h := natDiv_add_eq_floor 0 (natSqrt (T.num.toNat * T.den)) T.den T.den_pos
    (Real.sqrt ((T.num.toNat * T.den : ℕ))) (natSqrt_le_real _) (real_lt_natSqrt_succ _)
  simpa using h

/-- Decidable rational test for `√T1 + √T2 ≤ r` (valid for `T1, T2 ≥ 0`). -/
def sqrt2AddLe (T1 T2 r : ℚ) : Prop :=
  0 ≤ r ∧ T1 + T2 ≤ r^2 ∧ 4*T1*T2 ≤ (r^2 - T1 - T2)^2

instance sqrt2AddLe_dec (T1 T2 r : ℚ) : Decidable (sqrt2AddLe T1 T2 r) := by
  unfold sqrt2AddLe
  infer_instance

lemma sqrt2AddLe_iff (T1 T2 r : ℚ) (h1 : 0 ≤ T1) (h2 : 0 ≤ T2) :
    sqrt2AddLe T1 T2 r
      ↔ Real.sqrt (((T1 : ℚ) : ℝ)) + Real.sqrt (((T2 : ℚ) : ℝ)) ≤ ((r : ℚ) : ℝ) := by
  have h1R : (0:ℝ) ≤ ((T1 : ℚ) : ℝ) := by exact_mod_cast h1
  have h2R : (0:ℝ) ≤ ((T2 : ℚ) : ℝ) := by exact_mod_cast h2
  have hprod : Real.sqrt (((T1 : ℚ) : ℝ)) * Real.sqrt (((T2 : ℚ) : ℝ))
      = Real.sqrt (((T1 : ℚ) : ℝ) * ((T2 : ℚ) : ℝ)) := (Real.sqrt_mul h1R _).symm
  have hs1 := Real.sq_sqrt h1R
  have hs2 := Real.sq_sqrt h2R
  have hn1 := Real.sqrt_nonneg (((T1 : ℚ) : ℝ))
  have hn2 := Real.sqrt_nonneg (((T2 : ℚ) : ℝ))
  constructor
  · rintro ⟨hr, hsum, hcross⟩
    have hrR : (0:ℝ) ≤ ((r : ℚ) : ℝ) := by exact_mod_cast hr
    have hsumR : ((T1 : ℚ) : ℝ) + ((T2 : ℚ) : ℝ) ≤ ((r : ℚ) : ℝ)^2 := by
      exact_mod_cast hsum
    have hcrossR : 4*((T1 : ℚ) : ℝ)*((T2 : ℚ) : ℝ)
        ≤ (((r : ℚ) : ℝ)^2 - ((T1 : ℚ) : ℝ) - ((T2 : ℚ) : ℝ))^2 := by
      exact_mod_cast hcross
    have hd : (0:ℝ) ≤ ((r : ℚ) : ℝ)^2 - ((T1 : ℚ) : ℝ) - ((T2 : ℚ) : ℝ) := by linarith
    have hcross2 : 2 * Real.sqrt (((T1 : ℚ) : ℝ) * ((T2 : ℚ) : ℝ))
        ≤ ((r : ℚ) : ℝ)^2 - ((T1 : ℚ) : ℝ) - ((T2 : ℚ) : ℝ) := by
      have h4 : Real.sqrt (4*((T1 : ℚ) : ℝ)*((T2 : ℚ) : ℝ))
          ≤ Real.sqrt ((((r : ℚ) : ℝ)^2 - ((T1 : ℚ) : ℝ) - ((T2 : ℚ) : ℝ))^2) :=
        Real.sqrt_le_sqrt hcrossR
      rw [Real.sqrt_sq hd] at h4
      have h5 : Real.sqrt (4*((T1 : ℚ) : ℝ)*((T2 : ℚ) : ℝ))
          = 2 * Real.sqrt (((T1 : ℚ) : ℝ) * ((T2 : ℚ) : ℝ)) := by
        have h6 : 4*((T1 : ℚ) : ℝ)*((T2 : ℚ) : ℝ)
            = 2^2 * (((T1 : ℚ) : ℝ) * ((T2 : ℚ) : ℝ)) := by ring
        rw [h6, Real.sqrt_mul (by positivity), Real.sqrt_sq (by norm_num)]
      rw [h5] at h4
      exact h4
    nlinarith [hcross2, hprod, hs1, hs2, hn1, hn2,
      sq_nonneg (Real.sqrt (((T1 : ℚ) : ℝ)) + Real.sqrt (((T2 : ℚ) : ℝ)))]
  · intro hle
    have hrR : (0:ℝ) ≤ ((r : ℚ) : ℝ) := le_trans (by positivity) hle
    have hsq : (Real.sqrt (((T1 : ℚ) : ℝ)) + Real.sqrt (((T2 : ℚ) : ℝ)))^2
        ≤ ((r : ℚ) : ℝ)^2 := by
      have := pow_le_pow_left (by positivity) hle 2
      exact this
    have hexp : (Real.sqrt (((T1 : ℚ) : ℝ)) + Real.sqrt (((T2 : ℚ) : ℝ)))^2
        = ((T1 : ℚ) : ℝ) + ((T2 : ℚ) : ℝ)
          + 2 * Real.sqrt (((T1 : ℚ) : ℝ) * ((T2 : ℚ) : ℝ)) := by
      rw [add_pow_two, hs1, hs2, ← hprod]
      ring
    rw [hexp] at hsq
    have hsprod : (0:ℝ) ≤ Real.sqrt (((T1 : ℚ) : ℝ) * ((T2 : ℚ) : ℝ)) :=
      Real.sqrt_nonneg _
    refine ⟨by exact_mod_cast hrR, ?_, ?_⟩
    · have : ((T1 : ℚ) : ℝ) + ((T2 : ℚ) : ℝ) ≤ ((r : ℚ) : ℝ)^2 := by linarith
      exact_mod_cast this
    · have hd : (0:ℝ) ≤ ((r : ℚ) : ℝ)^2 - ((T1 : ℚ) : ℝ) - ((T2 : ℚ) : ℝ) := by linarith
      have h7 : 2 * Real.sqrt (((T1 : ℚ) : ℝ) * ((T2 : ℚ) : ℝ))
          ≤ ((r : ℚ) : ℝ)^2 - ((T1 : ℚ) : ℝ) - ((T2 : ℚ) : ℝ) := by linarith
      have h8 : (2 * Real.sqrt (((T1 : ℚ) : ℝ) * ((T2 : ℚ) : ℝ)))^2
          ≤ (((r : ℚ) : ℝ)^2 - ((T1 : ℚ) : ℝ) - ((T2 : ℚ) : ℝ))^2 :=
        pow_le_pow_left (by positivity) h7 2
      have h9 : (2 * Real.sqrt (((T1 : ℚ) : ℝ) * ((T2 : ℚ) : ℝ)))^2
          = 4*((T1 : ℚ) : ℝ)*((T2 : ℚ) : ℝ) := by
        rw [mul_pow, Real.sq_sqrt (by positivity)]
        ring
      rw [h9] at h8
      exact_mod_cast h8

/-- Exact integer ceiling of `√T1 + √T2` for nonnegative rationals. -/
def ceilSqrt2 (T1 T2 : ℚ) : ℤ :=
  let k0 : ℕ := floorSqrtQ T1 + floorSqrtQ T2
  if sqrt2AddLe T1 T2 (k0 : ℚ) then (k0 : ℤ)
  else if sqrt2AddLe T1 T2 ((k0 : ℚ) + 1) then (k0 : ℤ) + 1
  else (k0 : ℤ) + 2

lemma ceil_eq_of_bounds (r : ℝ) (z : ℤ) (h1 : (z : ℝ) - 1 < r) (h2 : r ≤ z) :
    ⌈r⌉ = z := by
  rw [Int.ceil_eq_iff]
  exact ⟨h1, h2⟩

lemma ceilSqrt2_eq (T1 T2 : ℚ) (h1 : 0 ≤ T1) (h2 : 0 ≤ T2) :
    ceilSqrt2 T1 T2
      = ⌈Real.sqrt (((T1 : ℚ) : ℝ)) + Real.sqrt (((T2 : ℚ) : ℝ))⌉ := by
  have hf1 := floorSqrtQ_eq T1 h1
  have hf2 := floorSqrtQ_eq T2 h2
  have hlow : ((floorSqrtQ T1 + floorSqrtQ T2 : ℕ) : ℝ)
      ≤ Real.sqrt (((T1 : ℚ) : ℝ)) + Real.sqrt (((T2 : ℚ) : ℝ)) := by
    have ha : ((floorSqrtQ T1 : ℕ) : ℝ) ≤ Real.sqrt (((T1 : ℚ) : ℝ)) := by
      have := Int.floor_le (Real.sqrt (((T1 : ℚ) : ℝ)))
      rw [← hf1] at this
      exact_mod_cast this
    have hb : ((floorSqrtQ T2 : ℕ) : ℝ) ≤ Real.sqrt (((T2 : ℚ) : ℝ)) := by
      have := Int.floor_le (Real.sqrt (((T2 : ℚ) : ℝ)))
      rw [← hf2] at this
      exact_mod_cast this
    push_cast
    push_cast at ha hb
    linarith
  have hhigh : Real.sqrt (((T1 : ℚ) : ℝ)) + Real.sqrt (((T2 : ℚ) : ℝ))
      < ((floorSqrtQ T1 + floorSqrtQ T2 : ℕ) : ℝ) + 2 := by
    have ha : Real.sqrt (((T1 : ℚ) : ℝ)) < ((floorSqrtQ T1 : ℕ) : ℝ) + 1 := by
      have := Int.lt_floor_add_one (Real.sqrt (((T1 : ℚ) : ℝ)))
      rw [← hf1] at this
      exact_mod_cast this
    have hb : Real.sqrt (((T2 : ℚ) : ℝ)) < ((floorSqrtQ T2 : ℕ) : ℝ) + 1 := by
      have := Int.lt_floor_add_one (Real.sqrt (((T2 : ℚ) : ℝ)))
      rw [← hf2] at this
      exact_mod_cast this
    push_cast
    push_cast at ha hb
    linarith
  unfold ceilSqrt2
  simp only []
  split_ifs with ha hb
  · have hv := (sqrt2AddLe_iff T1 T2 _ h1 h2).mp ha
    have hv2 : Real.sqrt (((T1 : ℚ) : ℝ)) + Real.sqrt (((T2 : ℚ) : ℝ))
        ≤ ((floorSqrtQ T1 + floorSqrtQ T2 : ℕ) : ℝ) := by
      push_cast
      push_cast at hv
      linarith
    have heq : Real.sqrt (((T1 : ℚ) : ℝ)) + Real.sqrt (((T2 : ℚ) : ℝ))
        = ((floorSqrtQ T1 + floorSqrtQ T2 : ℕ) : ℝ) := le_antisymm hv2 hlow
    rw [heq]
    symm
    apply ceil_eq_of_bounds
    · push_cast
      linarith
    · push_cast
      linarith
  · have hgt : ¬ (Real.sqrt (((T1 : ℚ) : ℝ)) + Real.sqrt (((T2 : ℚ) : ℝ))
        ≤ ((floorSqrtQ T1 + floorSqrtQ T2 : ℕ) : ℝ)) := by
      intro hc
      apply ha
      rw [sqrt2AddLe_iff T1 T2 _ h1 h2]
      push_cast
      push_cast at hc
      linarith
    push_neg at hgt
    have hle := (sqrt2AddLe_iff T1 T2 _ h1 h2).mp hb
    symm
    apply ceil_eq_of_bounds
    · push_cast
      push_cast at hgt
      linarith
    · push_cast
      push_cast at hle
      linarith
  · have hgt : ¬ (Real.sqrt (((T1 : ℚ) : ℝ)) + Real.sqrt (((T2 : ℚ) : ℝ))
        ≤ ((floorSqrtQ T1 + floorSqrtQ T2 : ℕ) : ℝ) + 1) := by
      intro hc
      apply hb
      rw [sqrt2AddLe_iff T1 T2 _ h1 h2]
      push_cast
      push_cast at hc
      linarith
    push_neg at hgt
    symm
    apply ceil_eq_of_bounds
    · push_cast
      push_cast at hgt
      linarith
    · push_cast
      push_cast at hhigh
      linarith

/-- The float64 value of `norm.ppf(0.80)` (0.8416212335729143), the `z_beta`
the code computes for the default `power = 0.80`, as an exact rational. -/
def zBeta80 : ℚ := 8416212335729143/10000000000000000

/-- Modelled from the spec (section 4.1, required sample size): the formula
exactly as the spec writes it,
`n = ceil( (z_alpha*sqrt(p0*(1-p0)) + z_beta*sqrt(p1*(1-p1))) / effect )²`,
with the squaring placed OUTSIDE the ceiling.  For nonnegative quantiles
and positive effect the quotient equals
`√(z_alpha² p0 (1-p0)/e²) + √(z_beta² p1 (1-p1)/e²)`, whose exact ceiling
`ceilSqrt2` computes. -/
def spec_required_sample_size (z_alpha z_beta baseline_wr effect_size : ℚ) : ℤ :=
  (ceilSqrt2 (z_alpha^2 * (baseline_wr*(1 - baseline_wr)) / effect_size^2)
      (z_beta^2 * ((baseline_wr + effect_size)*(1 - (baseline_wr + effect_size)))
        / effect_size^2))^2

/-- Claim C5 (amended).  On the valid domain, the required sample size the
code computes is the ceiling OF THE SQUARE,
`n = ceil( ((z_alpha*sqrt(p0(1-p0)) + z_beta*sqrt(p1(1-p1))) / effect)² )`
— the docstring formula, matching its example value 783 — not the square of
the ceiling that the spec formula's superscript placement denotes. -/
theorem required_sample_size_ceil_of_square (za zb p0 e : ℚ)
    (hza : 0 ≤ za) (hzb : 0 ≤ zb) (hp0 : 0 ≤ p0) (hp1 : p0 ≤ 1)
    (hq0 : 0 ≤ p0 + e) (hq1 : p0 + e ≤ 1) (he : 0 < e) :
    calculate_required_sample_size za zb p0 e
      = ⌈(((za : ℝ) * Real.sqrt (((p0 : ℝ))*(1 - (p0 : ℝ)))
            + (zb : ℝ) * Real.sqrt ((((p0 : ℝ)) + e)*(1 - ((p0 : ℝ) + e)))) / e)^2⌉ :=
  calculate_required_sample_size_eq za zb p0 e hza hzb hp0 hp1 hq0 hq1 he

/-- Witness for `required_sample_size_ceil_of_square` at
`z_alpha = 2, z_beta = 1, p0 = 1/2, effect = 1/4`. -/
theorem required_sample_size_ceil_of_square_witness :
    ((0:ℚ) ≤ 2 ∧ (0:ℚ) ≤ 1 ∧ (0:ℚ) ≤ 1/2 ∧ (1/2:ℚ) ≤ 1 ∧ (0:ℚ) ≤ 1/2 + 1/4 ∧
      (1/2:ℚ) + 1/4 ≤ 1 ∧ (0:ℚ) < 1/4) ∧
    calculate_required_sample_size 2 1 (1/2) (1/4)
      = ⌈((((2:ℚ) : ℝ) * Real.sqrt ((((1/2:ℚ) : ℝ))*(1 - ((1/2:ℚ) : ℝ)))
            + ((1:ℚ) : ℝ)
              * Real.sqrt ((((1/2:ℚ) : ℝ) + ((1/4:ℚ) : ℝ))
                  *(1 - (((1/2:ℚ) : ℝ) + ((1/4:ℚ) : ℝ)))))
          / ((1/4:ℚ) : ℝ))^2⌉ :=
  ⟨⟨by norm_num, by norm_num, by norm_num, by norm_num, by norm_num, by norm_num,
      by norm_num⟩,
    required_sample_size_ceil_of_square 2 1 (1/2) (1/4) (by norm_num) (by norm_num)
      (by norm_num) (by norm_num) (by norm_num) (by norm_num) (by norm_num)⟩

/-- Counterexample to the unamended claim C5.  At the defaults of the code
(`z_alpha = norm.ppf(0.975)`, `z_beta = norm.ppf(0.8)`, `p0 = 0.5`,
`effect = 0.05`) the code returns `ceil(x²) = ceil(782.52...) = 783` (the
docstring example), while the spec formula `ceil(x)² = 28² = 784`. -/
theorem required_sample_size_ceil_placement :
    calculate_required_sample_size z95 zBeta80 (1/2) (1/20)
      ≠ spec_required_sample_size z95 zBeta80 (1/2) (1/20) := by
  have hz : (0:ℚ) ≤ z95 := by norm_num [z95]
  have hzb : (0:ℚ) ≤ zBeta80 := by norm_num [zBeta80]
  have hz95R : ((z95 : ℚ) : ℝ) = 1959963984540054/1000000000000000 := by
    norm_num [z95]
  have hzb80R : ((zBeta80 : ℚ) : ℝ) = 8416212335729143/10000000000000000 := by
    norm_num [zBeta80]
  have hAarg : (((1/2 : ℚ) : ℝ))*(1 - ((1/2 : ℚ) : ℝ)) = ((1/2 : ℝ))^2 := by
    norm_num
  have hBarg : ((((1/2 : ℚ) : ℝ)) + ((1/20 : ℚ) : ℝ))
      *(1 - (((1/2 : ℚ) : ℝ) + ((1/20 : ℚ) : ℝ))) = (99/400 : ℝ) := by
    norm_num
  have hs1 : (49749371855/100000000000 : ℝ) < Real.sqrt ((99/400 : ℝ)) := by
    apply real_lt_sqrt_of_sq_lt (by norm_num)
    norm_num
  have hs2 : Real.sqrt ((99/400 : ℝ)) < 49749371856/100000000000 := by
    apply real_sqrt_lt_of_lt_sq (by norm_num)
    norm_num
  have hL : calculate_required_sample_size z95 zBeta80 (1/2) (1/20) = 783 := by
    rw [calculate_required_sample_size_eq z95 zBeta80 (1/2) (1/20) hz hzb
      (by norm_num) (by norm_num) (by norm_num) (by norm_num) (by norm_num)]
    rw [hAarg, hBarg, Real.sqrt_sq (by norm_num), hz95R, hzb80R]
    apply ceil_eq_of_bounds
    · push_cast
      nlinarith [hs1, hs2, Real.sqrt_nonneg ((99/400 : ℝ))]
    · push_cast
      nlinarith [hs1, hs2, Real.sqrt_nonneg ((99/400 : ℝ))]
  have hT1 : (0:ℚ) ≤ z95^2 * ((1/2)*(1 - (1/2))) / (1/20)^2 := by
    norm_num [z95]
  have hT2 : (0:ℚ) ≤ zBeta80^2 * (((1/2) + (1/20))*(1 - ((1/2) + (1/20)))) / (1/20)^2 := by
    norm_num [zBeta80]
  have hs99a : (99498743710/10000000000 : ℝ) < Real.sqrt ((99 : ℝ)) := by
    apply real_lt_sqrt_of_sq_lt (by norm_num)
    norm_num
  have hs99b : Real.sqrt ((99 : ℝ)) < 99498743711/10000000000 := by
    apply real_sqrt_lt_of_lt_sq (by norm_num)
    norm_num
  have hR : spec_required_sample_size z95 zBeta80 (1/2) (1/20) = 784 := by
    unfold spec_required_sample_size
    rw [ceilSqrt2_eq _ _ hT1 hT2]
    have hT1R : ((z95^2 * ((1/2 : ℚ)*(1 - (1/2 : ℚ))) / (1/20 : ℚ)^2 : ℚ) : ℝ)
        = (19599639845400540/1000000000000000 : ℝ)^2 := by
      norm_num [z95]
    have hT2R : ((zBeta80^2 * (((1/2 : ℚ) + (1/20 : ℚ))
          *(1 - ((1/2 : ℚ) + (1/20 : ℚ)))) / (1/20 : ℚ)^2 : ℚ) : ℝ)
        = (8416212335729143/10000000000000000 : ℝ)^2 * 99 := by
      norm_num [zBeta80]
    rw [hT1R, hT2R, Real.sqrt_sq (by norm_num)]
    have hsT2 : Real.sqrt ((8416212335729143/10000000000000000 : ℝ)^2 * 99)
        = (8416212335729143/10000000000000000 : ℝ) * Real.sqrt ((99 : ℝ)) := by
      rw [Real.sqrt_mul (by positivity), Real.sqrt_sq (by norm_num)]
    rw [hsT2]
    have hceil : ⌈(19599639845400540/1000000000000000 : ℝ)
        + (8416212335729143/10000000000000000 : ℝ) * Real.sqrt ((99 : ℝ))⌉ = 28 := by
      apply ceil_eq_of_bounds
      · push_cast
        nlinarith [hs99a, hs99b]
      · push_cast
        nlinarith [hs99a, hs99b]
    rw [hceil]
    norm_num
  rw [hL, hR]
  norm_num

/-- Claim C6.  For fixed baseline win rate and fixed alpha (quantile
`z_alpha`), the required sample size is monotonically decreasing in the
effect size; and monotonically increasing in the power, where the power
enters the code only through its normal quantile `z_beta = Φ⁻¹(power)` —
`Φ⁻¹` is strictly increasing and `Φ⁻¹(power) ≥ 0` for `power ≥ 1/2`, so
powers `1/2 ≤ pw1 < pw2 < 1` are modelled by quantiles
`0 ≤ zb1 ≤ zb2`. -/
theorem required_sample_size_monotone :
    (∀ za zb p0 e1 e2 : ℚ, 0 ≤ za → 0 ≤ zb → 0 ≤ p0 → p0 + e2 ≤ 1 →
      0 < e1 → e1 < e2 →
      calculate_required_sample_size za zb p0 e2
        ≤ calculate_required_sample_size za zb p0 e1) ∧
    (∀ za zb1 zb2 p0 e : ℚ, 0 ≤ za → 0 ≤ zb1 → zb1 ≤ zb2 → 0 ≤ p0 → p0 ≤ 1 →
      0 ≤ p0 + e → p0 + e ≤ 1 → 0 < e →
      calculate_required_sample_size za zb1 p0 e
        ≤ calculate_required_sample_size za zb2 p0 e) := by
  constructor
  · intro za zb p0 e1 e2 hza hzb hp0 hsum2 he1 he12
    have he2 : 0 < e2 := lt_trans he1 he12
    have hsum1 : p0 + e1 ≤ 1 := by linarith
    have hp1 : p0 ≤ 1 := by linarith
    have hq01 : 0 ≤ p0 + e1 := by linarith
    have hq02 : 0 ≤ p0 + e2 := by linarith
    rw [calculate_required_sample_size_eq za zb p0 e1 hza hzb hp0 hp1 hq01 hsum1 he1,
      calculate_required_sample_size_eq za zb p0 e2 hza hzb hp0 hp1 hq02 hsum2 he2]
    apply Int.ceil_mono
    have hzaR : (0:ℝ) ≤ (za : ℝ) := by exact_mod_cast hza
    have hzbR : (0:ℝ) ≤ (zb : ℝ) := by exact_mod_cast hzb
    have hp0R : (0:ℝ) ≤ (p0 : ℝ) := by exact_mod_cast hp0
    have he1R : (0:ℝ) < (e1 : ℝ) := by exact_mod_cast he1
    have he2R : (0:ℝ) < (e2 : ℝ) := by exact_mod_cast he2
    have h12R : ((e1 : ℝ)) < (e2 : ℝ) := by exact_mod_cast he12
    have hs1R : ((p0 : ℝ)) + e1 ≤ 1 := by exact_mod_cast hsum1
    have hs2R : ((p0 : ℝ)) + e2 ≤ 1 := by exact_mod_cast hsum2
    have hB1 : (0:ℝ) ≤ (((p0 : ℝ)) + e1)*(1 - ((p0 : ℝ) + e1)) := by nlinarith
    have hB2 : (0:ℝ) ≤ (((p0 : ℝ)) + e2)*(1 - ((p0 : ℝ) + e2)) := by nlinarith
    have hpoly : (((p0 : ℝ)) + e2)*(1 - ((p0 : ℝ) + e2)) * (e1 : ℝ)^2
        ≤ (((p0 : ℝ)) + e1)*(1 - ((p0 : ℝ) + e1)) * (e2 : ℝ)^2 := by
      have ht1 : (0:ℝ) ≤ (p0 : ℝ)*e1*(1 - (p0 : ℝ) - e2) :=
        mul_nonneg (mul_nonneg hp0R he1R.le) (by linarith)
      have ht2 : (0:ℝ) ≤ (p0 : ℝ)*e2*(1 - (p0 : ℝ) - e1) :=
        mul_nonneg (mul_nonneg hp0R he2R.le) (by linarith)
      have ht3 : (0:ℝ) ≤ (e1 : ℝ)*e2 := mul_nonneg he1R.le he2R.le
      have hfac : (0:ℝ) ≤ ((e2 : ℝ) - e1)
          * ((p0 : ℝ)*e1*(1 - (p0 : ℝ) - e2) + (p0 : ℝ)*e2*(1 - (p0 : ℝ) - e1)
              + (e1 : ℝ)*e2) :=
        mul_nonneg (by linarith) (by linarith)
      nlinarith [hfac]
    have hsq : Real.sqrt ((((p0 : ℝ)) + e2)*(1 - ((p0 : ℝ) + e2))) * (e1 : ℝ)
        ≤ Real.sqrt ((((p0 : ℝ)) + e1)*(1 - ((p0 : ℝ) + e1))) * (e2 : ℝ) := by
      have h1 : Real.sqrt ((((p0 : ℝ)) + e2)*(1 - ((p0 : ℝ) + e2)) * (e1 : ℝ)^2)
          ≤ Real.sqrt ((((p0 : ℝ)) + e1)*(1 - ((p0 : ℝ) + e1)) * (e2 : ℝ)^2) :=
        Real.sqrt_le_sqrt hpoly
      rwa [Real.sqrt_mul hB2, Real.sqrt_mul hB1, Real.sqrt_sq he1R.le,
        Real.sqrt_sq he2R.le] at h1
    have hA : (0:ℝ) ≤ Real.sqrt (((p0 : ℝ))*(1 - (p0 : ℝ))) := Real.sqrt_nonneg _
    have hnum : ((za : ℝ) * Real.sqrt (((p0 : ℝ))*(1 - (p0 : ℝ)))
          + (zb : ℝ) * Real.sqrt ((((p0 : ℝ)) + e2)*(1 - ((p0 : ℝ) + e2)))) * e1
        ≤ ((za : ℝ) * Real.sqrt (((p0 : ℝ))*(1 - (p0 : ℝ)))
          + (zb : ℝ) * Real.sqrt ((((p0 : ℝ)) + e1)*(1 - ((p0 : ℝ) + e1)))) * e2 := by
      have hterm1 : (zb : ℝ)
            * (Real.sqrt ((((p0 : ℝ)) + e2)*(1 - ((p0 : ℝ) + e2))) * e1)
          ≤ (zb : ℝ)
            * (Real.sqrt ((((p0 : ℝ)) + e1)*(1 - ((p0 : ℝ) + e1))) * e2) :=
        mul_le_mul_of_nonneg_left hsq hzbR
      have hterm2 : ((za : ℝ) * Real.sqrt (((p0 : ℝ))*(1 - (p0 : ℝ)))) * e1
          ≤ ((za : ℝ) * Real.sqrt (((p0 : ℝ))*(1 - (p0 : ℝ)))) * e2 :=
        mul_le_mul_of_nonneg_left h12R.le (mul_nonneg hzaR hA)
      nlinarith [hterm1, hterm2]
    have hx2 : (0:ℝ) ≤ ((za : ℝ) * Real.sqrt (((p0 : ℝ))*(1 - (p0 : ℝ)))
          + (zb : ℝ) * Real.sqrt ((((p0 : ℝ)) + e2)*(1 - ((p0 : ℝ) + e2)))) / e2 := by
      apply div_nonneg _ he2R.le
      have := Real.sqrt_nonneg ((((p0 : ℝ)) + e2)*(1 - ((p0 : ℝ) + e2)))
      nlinarith [mul_nonneg hzaR hA, mul_nonneg hzbR this]
    have hxle : ((za : ℝ) * Real.sqrt (((p0 : ℝ))*(1 - (p0 : ℝ)))
          + (zb : ℝ) * Real.sqrt ((((p0 : ℝ)) + e2)*(1 - ((p0 : ℝ) + e2)))) / e2
        ≤ ((za : ℝ) * Real.sqrt (((p0 : ℝ))*(1 - (p0 : ℝ)))
          + (zb : ℝ) * Real.sqrt ((((p0 : ℝ)) + e1)*(1 - ((p0 : ℝ) + e1)))) / e1 := by
      rw [div_le_div_iff he2R he1R]
      exact hnum
    exact pow_le_pow_left hx2 hxle 2
  · intro za zb1 zb2 p0 e hza hzb1 hzb12 hp0 hp1 hq0 hq1 he
    have hzb2 : (0:ℚ) ≤ zb2 := le_trans hzb1 hzb12
    rw [calculate_required_sample_size_eq za zb1 p0 e hza hzb1 hp0 hp1 hq0 hq1 he,
      calculate_required_sample_size_eq za zb2 p0 e hza hzb2 hp0 hp1 hq0 hq1 he]
    apply Int.ceil_mono
    have hzaR : (0:ℝ) ≤ (za : ℝ) := by exact_mod_cast hza
    have hzb1R : (0:ℝ) ≤ (zb1 : ℝ) := by exact_mod_cast hzb1
    have hzb12R : ((zb1 : ℝ)) ≤ (zb2 : ℝ) := by exact_mod_cast hzb12
    have heR : (0:ℝ) < (e : ℝ) := by exact_mod_cast he
    have hA : (0:ℝ) ≤ Real.sqrt (((p0 : ℝ))*(1 - (p0 : ℝ))) := Real.sqrt_nonneg _
    have hB : (0:ℝ) ≤ Real.sqrt ((((p0 : ℝ)) + e)*(1 - ((p0 : ℝ) + e))) :=
      Real.sqrt_nonneg _
    have hx1 : (0:ℝ) ≤ ((za : ℝ) * Real.sqrt (((p0 : ℝ))*(1 - (p0 : ℝ)))
          + (zb1 : ℝ) * Real.sqrt ((((p0 : ℝ)) + e)*(1 - ((p0 : ℝ) + e)))) / e := by
      apply div_nonneg _ heR.le
      nlinarith [mul_nonneg hzaR hA, mul_nonneg hzb1R hB]
    have hxle : ((za : ℝ) * Real.sqrt (((p0 : ℝ))*(1 - (p0 : ℝ)))
          + (zb1 : ℝ) * Real.sqrt ((((p0 : ℝ)) + e)*(1 - ((p0 : ℝ) + e)))) / e
        ≤ ((za : ℝ) * Real.sqrt (((p0 : ℝ))*(1 - (p0 : ℝ)))
          + (zb2 : ℝ) * Real.sqrt ((((p0 : ℝ)) + e)*(1 - ((p0 : ℝ) + e)))) / e := by
      rw [div_le_div_iff heR heR]
      have h1 : ((zb1 : ℝ)) * Real.sqrt ((((p0 : ℝ)) + e)*(1 - ((p0 : ℝ) + e)))
          ≤ ((zb2 : ℝ)) * Real.sqrt ((((p0 : ℝ)) + e)*(1 - ((p0 : ℝ) + e))) :=
        mul_le_mul_of_nonneg_right hzb12R hB
      have h2 : (0:ℝ) ≤ ((zb2 : ℝ) * Real.sqrt ((((p0 : ℝ)) + e)*(1 - ((p0 : ℝ) + e)))
          - (zb1 : ℝ) * Real.sqrt ((((p0 : ℝ)) + e)*(1 - ((p0 : ℝ) + e)))) * e :=
        mul_nonneg (sub_nonneg.mpr h1) heR.le
      nlinarith [h2]
    exact pow_le_pow_left hx1 hxle 2

/-- Witness for `required_sample_size_monotone` at concrete parameters. -/
theorem required_sample_size_monotone_witness :
    ((0:ℚ) ≤ 2 ∧ (0:ℚ) ≤ 1 ∧ (0:ℚ) ≤ 1/2 ∧ (1/2:ℚ) + 1/5 ≤ 1 ∧ (0:ℚ) < 1/10 ∧
      (1/10:ℚ) < 1/5 ∧
      calculate_required_sample_size 2 1 (1/2) (1/5)
        ≤ calculate_required_sample_size 2 1 (1/2) (1/10)) ∧
    ((0:ℚ) ≤ 2 ∧ (0:ℚ) ≤ 1 ∧ (1:ℚ) ≤ 3/2 ∧ (0:ℚ) ≤ 1/2 ∧ (1/2:ℚ) ≤ 1 ∧
      (0:ℚ) ≤ 1/2 + 1/10 ∧ (1/2:ℚ) + 1/10 ≤ 1 ∧ (0:ℚ) < 1/10 ∧
      calculate_required_sample_size 2 1 (1/2) (1/10)
        ≤ calculate_required_sample_size 2 (3/2) (1/2) (1/10)) :=
  ⟨⟨by norm_num, by norm_num, by norm_num, by norm_num, by norm_num, by norm_num,
      required_sample_size_monotone.1 2 1 (1/2) (1/10) (1/5) (by norm_num)
        (by norm_num) (by norm_num) (by norm_num) (by norm_num) (by norm_num)⟩,
    ⟨by norm_num, by norm_num, by norm_num, by norm_num, by norm_num, by norm_num,
      by norm_num, by norm_num,
      required_sample_size_monotone.2 2 1 (3/2) (1/2) (1/10) (by norm_num)
        (by norm_num) (by norm_num) (by norm_num) (by norm_num) (by norm_num)
        (by norm_num) (by norm_num)⟩⟩

/-!
Embedding of the per-hero body of `analyze_teammate_synergies`
(`src/analyzers/teammate_synergy.py` lines 388-526) and its helpers:
`extract_teammates_from_match` (lines 137-147, also the `hero_name != %s`
filter of `query_match_teammates`), the `defaultdict` accumulation of
per-teammate `{games, wins}` (lines 399-409), the synergy-record
construction (lines 415-468), `add_sample_size_warning` (lines 75-97),
`binomial_test_synergy` (`statistics.py` lines 152-181, with
`scipy.stats.binomtest` as an abstract p-value oracle),
`calculate_power_analysis` (lines 100-134), the per-hero Bonferroni batch,
the stable descending sort by synergy score, and the top-N truncation.
Database caching, logging and the `analyzed_at` timestamp are I/O and are
not modelled. -/

/-- Threshold constants of `teammate_synergy.py` (lines 28-35). -/
def MIN_GAMES_TOGETHER : ℕ := 50

def TOP_N_SYNERGIES : ℕ := 10

def SAMPLE_SIZE_HIGH_CONFIDENCE : ℕ := 500

def SAMPLE_SIZE_MEDIUM_CONFIDENCE : ℕ := 100

/-- The warning text for a medium sample (f-string of lines 88-90). -/
def moderateSampleWarning (games_together : ℕ) : String :=
  "Moderate sample size (" ++ toString games_together
    ++ " games). Results may have wide confidence intervals."

/-- The warning text for a low sample (f-string of lines 94-96). -/
def lowSampleWarning (games_together : ℕ) : String :=
  "Low sample size (" ++ toString games_together
    ++ " games). Results are unreliable. Interpret with caution."

/-- Embedding of `add_sample_size_warning(games_together)`. -/
def add_sample_size_warning (games_together : ℕ) : String × Option String :=
  if games_together ≥ SAMPLE_SIZE_HIGH_CONFIDENCE then ("high", none)
  else if games_together ≥ SAMPLE_SIZE_MEDIUM_CONFIDENCE then
    ("medium", some (moderateSampleWarning games_together))
  else ("low", some (lowSampleWarning games_together))

/-- Embedding of `binomial_test_synergy(wins, total, expected_wr, alpha)`:
the scipy exact binomial test enters as the abstract p-value oracle
`pvalue_model`; the returned p-value is rounded to 4 decimals while the
significance flag compares the unrounded p-value with `alpha`. -/
def binomial_test_synergy (pvalue_model : ℕ → ℕ → ℚ → ℚ)
    (wins total : ℕ) (expected_wr : ℚ) (alpha : ℚ) : ℚ × Bool :=
  (roundTo 4 (pvalue_model wins total expected_wr),
    decide (pvalue_model wins total expected_wr < alpha))

/-- Shape of the dictionary returned by `calculate_power_analysis`. -/
structure PowerAnalysis where
  current_max_samples : ℕ
  required_for_3pct_synergy : ℤ
  required_for_5pct_synergy : ℤ
  required_for_10pct_synergy : ℤ
  can_detect_effects : String
deriving DecidableEq

/-- Embedding of `calculate_power_analysis(max_games_together)` at the
default `baseline_wr = 0.5`; the required sample sizes use the default
`alpha = 0.05`, `power = 0.80` quantiles. -/
def calculate_power_analysis (max_games_together : ℕ) : PowerAnalysis :=
  let required_3pct := calculate_required_sample_size z95 zBeta80 (1/2) (3/100)
  let required_5pct := calculate_required_sample_size z95 zBeta80 (1/2) (1/20)
  let required_10pct := calculate_required_sample_size z95 zBeta80 (1/2) (1/10)
  { current_max_samples := max_games_together,
    required_for_3pct_synergy := required_3pct,
    required_for_5pct_synergy := required_5pct,
    required_for_10pct_synergy := required_10pct,
    can_detect_effects :=
      if required_3pct ≤ (max_games_together : ℤ) then ">=3%"
      else if required_5pct ≤ (max_games_together : ℤ) then ">=5%"
      else if required_10pct ≤ (max_games_together : ℤ) then ">=10%"
      else ">10% (low power)" }

/-- One match participation of the analyzed hero: whether the hero's team
won, and the roster row of hero names on that team returned for the match
(the analyzed hero itself is excluded by the SQL filter, which
`extract_teammates_from_match` re-applies). -/
structure MatchEntry where
  won : Bool
  teammates : List String

/-- Embedding of `extract_teammates_from_match(teammates, hero)`:
`[t for t in teammates if t != hero]`. -/
def extract_teammates_from_match (teammates : List String) (hero : String) :
    List String :=
  teammates.filter (fun t => t != hero)

/-- One `defaultdict` update of `teammate_stats[teammate]`: add one game
(and one win when `won`) to the teammate's entry of the ordered association
list `(teammate, games, wins)`, appending a fresh entry on first sight. -/
def bumpTeammate : List (String × ℕ × ℕ) → String → Bool → List (String × ℕ × ℕ)
  | [], t, won => [(t, 1, if won then 1 else 0)]
  | (u, g, w) :: rest, t, won =>
    if u = t then (u, g+1, if won then w+1 else w) :: rest
    else (u, g, w) :: bumpTeammate rest t won

/-- The per-teammate `{games, wins}` accumulation of
`analyze_teammate_synergies` (lines 399-409), in insertion order. -/
def teammate_stats (hero : String) (hero_matches : List MatchEntry) :
    List (String × ℕ × ℕ) :=
  hero_matches.foldl
    (fun acc mtch =>
      (extract_teammates_from_match mtch.teammates hero).foldl
        (fun a t => bumpTeammate a t mtch.won) acc)
    []

/-- The synergy-building loop of `analyze_teammate_synergies`
(lines 411-468): entries below `min_games_together` are skipped; the
maximum games-together is tracked BEFORE the cached-win-rate check;
teammates without a cached win rate are skipped (with a warning in the
code); for the rest the full synergy record is built.  Returns the record
list (in iteration order) and `max_games`. -/
def synergyStep (char_win_rates : String → Option ℚ)
    (pvalue_model : ℕ → ℕ → ℚ → ℚ) (hero_wr : ℚ) (alpha : ℚ)
    (min_games_together : ℕ) (acc : List Synergy × ℕ) (ts : String × ℕ × ℕ) :
    List Synergy × ℕ :=
  if ts.2.1 < min_games_together then acc
  else
    let max_games := max acc.2 ts.2.1
    match char_win_rates ts.1 with
    | none => (acc.1, max_games)
    | some teammate_wr =>
      let actual_wr : ℚ := (ts.2.2 : ℚ) / (ts.2.1 : ℚ)
      let expected_wr := expected_wr_average hero_wr teammate_wr
      let score := calculate_synergy_score actual_wr expected_wr
      let ci := wilson_confidence_interval ts.2.2 ts.2.1
      let test := binomial_test_synergy pvalue_model ts.2.2 ts.2.1 expected_wr alpha
      let cw := add_sample_size_warning ts.2.1
      let synergy_data : Synergy :=
        { teammate := ts.1, games_together := ts.2.1, wins_together := ts.2.2,
          actual_win_rate := roundTo 4 actual_wr, expected_win_rate := expected_wr,
          synergy_score := score, ci_lower := ci.1, ci_upper := ci.2,
          p_value := test.1, significant := test.2, confidence_level := cw.1,
          sample_size_warning := cw.2 }
      (acc.1 ++ [synergy_data], max_games)

def buildSynergies (char_win_rates : String → Option ℚ)
    (pvalue_model : ℕ → ℕ → ℚ → ℚ) (hero_wr : ℚ) (alpha : ℚ)
    (min_games_together : ℕ) (stats : List (String × ℕ × ℕ)) :
    List Synergy × ℕ :=
  stats.foldl (synergyStep char_win_rates pvalue_model hero_wr alpha min_games_together)
    ([], 0)

/-- One insertion step of the stable descending sort by `synergy_score`
(Python `list.sort(key=..., reverse=True)` is stable; inserting after all
entries with an equal or larger key preserves the original order of
ties). -/
def insertSynergyDesc (s : Synergy) : List Synergy → List Synergy
  | [] => [s]
  | t :: rest =>
    if t.synergy_score < s.synergy_score then s :: t :: rest
    else t :: insertSynergyDesc s rest

/-- Stable descending sort by `synergy_score` (line 475). -/
def sortBySynergyDesc (l : List Synergy) : List Synergy :=
  l.foldl (fun acc s => insertSynergyDesc s acc) []

/-- Per-hero result record of `analyze_teammate_synergies`
(lines 518-524; the `analyzed_at` timestamp is I/O and not modelled). -/
structure HeroSynergyResult where
  hero : String
  rank_tier : String
  synergies : List Synergy
  power_analysis : Option PowerAnalysis

/-- Embedding of the per-hero loop body of `analyze_teammate_synergies`:
`none` models the `continue` for heroes with no matches; `hero_wr` is the
hero's cached overall win rate `char_win_rates[hero]`. -/
def analyze_hero_synergies (char_win_rates : String → Option ℚ)
    (pvalue_model : ℕ → ℕ → ℚ → ℚ) (hero : String) (hero_wr : ℚ)
    (hero_matches : List MatchEntry) (min_games_together : ℕ)
    (rank_tier : Option String) (alpha : ℚ) : Option HeroSynergyResult :=
  if hero_matches.isEmpty then none
  else
    let built := buildSynergies char_win_rates pvalue_model hero_wr alpha
      min_games_together (teammate_stats hero hero_matches)
    let synergies := if built.1.isEmpty then built.1
      else bonferroni_correction built.1 alpha
    some { hero := hero,
           rank_tier := rank_tier.getD "all",
           synergies := (sortBySynergyDesc synergies).take TOP_N_SYNERGIES,
           power_analysis :=
             if 0 < built.2 then some (calculate_power_analysis built.2) else none }

/-- The per-record invariant claim C3 is about: the expected win rate comes
from the average baseline on the cached win rates, and the synergy score
and actual win rate are the one-shot roundings of the raw
`wins_together / games_together`. -/
def ScoreInvariant (char_win_rates : String → Option ℚ) (hero_wr : ℚ)
    (s : Synergy) : Prop :=
  (∃ twr, char_win_rates s.teammate = some twr ∧
      s.expected_win_rate = expected_wr_average hero_wr twr) ∧
  s.synergy_score = calculate_synergy_score
      ((s.wins_together : ℚ) / (s.games_together : ℚ)) s.expected_win_rate ∧
  s.actual_win_rate = roundTo 4 ((s.wins_together : ℚ) / (s.games_together : ℚ))

lemma synergyStep_invariant (cwr : String → Option ℚ) (pv : ℕ → ℕ → ℚ → ℚ)
    (hwr alpha : ℚ) (ming : ℕ) (acc : List Synergy × ℕ) (ts : String × ℕ × ℕ)
    (hacc : ∀ s ∈ acc.1, ScoreInvariant cwr hwr s) :
    ∀ s ∈ (synergyStep cwr pv hwr alpha ming acc ts).1, ScoreInvariant cwr hwr s := by
  intro s hs
  unfold synergyStep at hs
  by_cases hskip : ts.2.1 < ming
  · rw [if_pos hskip] at hs
    exact hacc s hs
  · rw [if_neg hskip] at hs
    rcases hcwr : cwr ts.1 with _ | twr
    · rw [hcwr] at hs
      exact hacc s hs
    · rw [hcwr] at hs
      simp only [List.mem_append, List.mem_singleton] at hs
      rcases hs with hold | hnew
      · exact hacc s hold
      · subst hnew
        refine ⟨⟨twr, hcwr, rfl⟩, rfl, rfl⟩

lemma buildSynergies_invariant (cwr : String → Option ℚ) (pv : ℕ → ℕ → ℚ → ℚ)
    (hwr alpha : ℚ) (ming : ℕ) (stats : List (String × ℕ × ℕ)) :
    ∀ s ∈ (buildSynergies cwr pv hwr alpha ming stats).1, ScoreInvariant cwr hwr s := by
  unfold buildSynergies
  suffices h : ∀ (acc : List Synergy × ℕ),
      (∀ s ∈ acc.1, ScoreInvariant cwr hwr s) →
      ∀ s ∈ (stats.foldl (synergyStep cwr pv hwr alpha ming) acc).1,
        ScoreInvariant cwr hwr s by
    exact h ([], 0) (by intro s hs; simp at hs)
  induction stats with
  | nil => intro acc hacc; exact hacc
  | cons hd tl ih =>
    intro acc hacc
    rw [List.foldl_cons]
    exact ih _ (synergyStep_invariant cwr pv hwr alpha ming acc hd hacc)

lemma mem_insertSynergyDesc {x s : Synergy} {l : List Synergy} :
    x ∈ insertSynergyDesc s l ↔ x = s ∨ x ∈ l := by
  induction l with
  | nil => simp [insertSynergyDesc]
  | cons t rest ih =>
    unfold insertSynergyDesc
    split_ifs with h
    · simp
    · simp only [List.mem_cons, ih]
      tauto

lemma mem_sortBySynergyDesc {x : Synergy} {l : List Synergy} :
    x ∈ sortBySynergyDesc l ↔ x ∈ l := by
  unfold sortBySynergyDesc
  suffices h : ∀ (acc : List Synergy),
      (x ∈ l.foldl (fun acc s => insertSynergyDesc s acc) acc ↔ x ∈ acc ∨ x ∈ l) by
    have := h []
    simpa using this
  induction l with
  | nil => intro acc; simp
  | cons t rest ih =>
    intro acc
    rw [List.foldl_cons, ih]
    rw [mem_insertSynergyDesc]
    simp only [List.mem_cons]
    tauto

lemma bonferroni_correction_mem {l : List Synergy} {alpha : ℚ} {s : Synergy}
    (h : s ∈ bonferroni_correction l alpha) :
    ∃ t ∈ l, s.teammate = t.teammate ∧ s.games_together = t.games_together ∧
      s.wins_together = t.wins_together ∧ s.actual_win_rate = t.actual_win_rate ∧
      s.expected_win_rate = t.expected_win_rate ∧ s.synergy_score = t.synergy_score := by
  unfold bonferroni_correction at h
  split_ifs at h with h0
  · exact ⟨s, h, rfl, rfl, rfl, rfl, rfl, rfl⟩
  · simp only [List.mem_map] at h
    obtain ⟨t, ht, hst⟩ := h
    subst hst
    exact ⟨t, ht, rfl, rfl, rfl, rfl, rfl, rfl⟩

lemma ScoreInvariant_of_fields {cwr : String → Option ℚ} {hwr : ℚ} {s t : Synergy}
    (ht : ScoreInvariant cwr hwr t)
    (h1 : s.teammate = t.teammate) (h2 : s.games_together = t.games_together)
    (h3 : s.wins_together = t.wins_together) (h4 : s.actual_win_rate = t.actual_win_rate)
    (h5 : s.expected_win_rate = t.expected_win_rate)
    (h6 : s.synergy_score = t.synergy_score) :
    ScoreInvariant cwr hwr s := by
  obtain ⟨⟨twr, htw, hexp⟩, hsc, hact⟩ := ht
  refine ⟨⟨twr, ?_, ?_⟩, ?_, ?_⟩
  · rw [h1]; exact htw
  · rw [h5]; exact hexp
  · rw [h6, h2, h3, h5]; exact hsc
  · rw [h4, h2, h3]; exact hact

lemma calculate_synergy_score_avg (a x y : ℚ) :
    calculate_synergy_score a (expected_wr_average x y)
      = roundTo 4 a - expected_wr_average x y := by
  obtain ⟨z, hz⟩ := roundTo_exists_int 4 ((x + y)/2)
  have hz2 : expected_wr_average x y = (z : ℚ)/10^4 := hz
  unfold calculate_synergy_score
  rw [hz2]
  exact roundTo_sub_int_div 4 a z

/-- Claim C3.  In every record emitted by the synergy analysis, the synergy
score is exactly `round(actual_wr - expected_wr, 4)` computed once from the
raw actual win rate `wins_together / games_together` and the
baseline-model expected value; consequently it also equals the difference
`actual_win_rate - expected_win_rate` of the separately stored rounded
fields (consistency), and no further rounding happens downstream (the
Bonferroni step, the sort and the top-N truncation leave the score
unchanged). -/
theorem synergy_score_rounded_once (cwr : String → Option ℚ)
    (pv : ℕ → ℕ → ℚ → ℚ) (hero : String) (hwr : ℚ) (ms : List MatchEntry)
    (ming : ℕ) (rt : Option String) (alpha : ℚ) (res : HeroSynergyResult)
    (hres : analyze_hero_synergies cwr pv hero hwr ms ming rt alpha = some res) :
    ∀ s ∈ res.synergies,
      s.synergy_score = calculate_synergy_score
          ((s.wins_together : ℚ) / (s.games_together : ℚ)) s.expected_win_rate ∧
      s.synergy_score = s.actual_win_rate - s.expected_win_rate ∧
      ∃ twr, cwr s.teammate = some twr ∧
        s.expected_win_rate = expected_wr_average hwr twr := by
  intro s hs
  rw [analyze_hero_synergies] at hres
  split_ifs at hres with hemp
  have hres2 := Option.some.inj hres
  rw [← hres2] at hs
  simp only at hs
  have hs2 := List.mem_of_mem_take hs
  have hs3 := mem_sortBySynergyDesc.mp hs2
  have hinv : ScoreInvariant cwr hwr s := by
    by_cases hempty :
        (buildSynergies cwr pv hwr alpha ming (teammate_stats hero ms)).1.isEmpty
    · rw [if_pos hempty] at hs3
      exact buildSynergies_invariant cwr pv hwr alpha ming (teammate_stats hero ms)
        s hs3
    · rw [if_neg hempty] at hs3
      obtain ⟨t, ht, h1, h2, h3, h4, h5, h6⟩ := bonferroni_correction_mem hs3
      exact ScoreInvariant_of_fields
        (buildSynergies_invariant cwr pv hwr alpha ming (teammate_stats hero ms)
          t ht) h1 h2 h3 h4 h5 h6
  obtain ⟨⟨twr, htw, hexp⟩, hsc, hact⟩ := hinv
  refine ⟨hsc, ?_, ⟨twr, htw, hexp⟩⟩
  rw [hsc, hexp, calculate_synergy_score_avg, hact]

/-- Cached-win-rate table for the concrete run: only "Thor" is cached. -/
def cwrW : String → Option ℚ := fun t => if t = "Thor" then some (1/2) else none

/-- Constant p-value oracle for the concrete run. -/
def pvW : ℕ → ℕ → ℚ → ℚ := fun _ _ _ => 3/100

/-- Two matches of the analyzed hero, both with teammate "Thor". -/
def msW : List MatchEntry := [⟨true, ["Thor"]⟩, ⟨false, ["Thor"]⟩]

/-- The synergy record the concrete run produces for "Thor". -/
def synW : Synergy :=
  { teammate := "Thor", games_together := 2, wins_together := 1,
    actual_win_rate := 1/2, expected_win_rate := 1/2, synergy_score := 0,
    ci_lower := 945/10^4, ci_upper := 9055/10^4, p_value := 3/100,
    significant := true, confidence_level := "low",
    sample_size_warning := some (lowSampleWarning 2),
    significant_bonferroni := some true, bonferroni_alpha := some (1/20) }

/-- The analysis result of the concrete run. -/
def resW : HeroSynergyResult :=
  { hero := "Hulk", rank_tier := "all", synergies := [synW],
    power_analysis := some (calculate_power_analysis 2) }

lemma wilson_1_2 : wilson_confidence_interval 1 2 = (945/10^4, 9055/10^4) := by
  have hns : natSqrt 8975889404990779178971827295598901457031250643106560013897222400000000 = 94741170591199574743772375401219986 := by decide
  have hceil : ceilSqrtNat 8975889404990779178971827295598901457031250643106560013897222400000000 = 94741170591199574743772375401219987 := by decide
  unfold wilson_confidence_interval wilsonCore
  norm_num [hns, hceil]

lemma analyze_W_eval :
    analyze_hero_synergies cwrW pvW "Hulk" (1/2) msW 1 none (1/20) = some resW := by
  rw [analyze_hero_synergies]
  norm_num [msW, teammate_stats, extract_teammates_from_match, bumpTeammate,
    buildSynergies, synergyStep, cwrW, pvW, expected_wr_average,
    calculate_synergy_score, binomial_test_synergy, add_sample_size_warning,
    SAMPLE_SIZE_HIGH_CONFIDENCE, SAMPLE_SIZE_MEDIUM_CONFIDENCE,
    bonferroni_correction, sortBySynergyDesc, insertSynergyDesc,
    TOP_N_SYNERGIES, wilson_1_2, roundTo, resW, synW, List.foldl, List.filter,
    Option.getD, Nat.zero_max, decide_eq_true_eq]

/-- Witness for `synergy_score_rounded_once`: the concrete two-match run. -/
theorem synergy_score_rounded_once_witness :
    analyze_hero_synergies cwrW pvW "Hulk" (1/2) msW 1 none (1/20) = some resW ∧
    (synW.synergy_score = calculate_synergy_score
        ((synW.wins_together : ℚ) / (synW.games_together : ℚ)) synW.expected_win_rate ∧
      synW.synergy_score = synW.actual_win_rate - synW.expected_win_rate ∧
      ∃ twr, cwrW synW.teammate = some twr ∧
        synW.expected_win_rate = expected_wr_average (1/2) twr) :=
  ⟨analyze_W_eval,
    synergy_score_rounded_once cwrW pvW "Hulk" (1/2) msW 1 none (1/20) resW
      analyze_W_eval synW (by simp [resW])⟩

lemma foldl_synergyStep_skip (cwr : String → Option ℚ) (pv : ℕ → ℕ → ℚ → ℚ)
    (hwr alpha : ℚ) (ming : ℕ) (stats : List (String × ℕ × ℕ))
    (h : ∀ ts ∈ stats, ts.2.1 < ming) (acc : List Synergy × ℕ) :
    stats.foldl (synergyStep cwr pv hwr alpha ming) acc = acc := by
  induction stats generalizing acc with
  | nil => rfl
  | cons hd tl ih =>
    rw [List.foldl_cons]
    have hhd : hd.2.1 < ming := h hd (List.mem_cons_self hd tl)
    have hstep : synergyStep cwr pv hwr alpha ming acc hd = acc := by
      unfold synergyStep
      rw [if_pos hhd]
    rw [hstep]
    exact ih (fun ts hts => h ts (List.mem_cons_of_mem hd hts)) acc

/-- When every accumulated teammate entry is below the games threshold, the
synergy-building loop produces no records and `max_games` stays `0`. -/
lemma buildSynergies_all_skip (cwr : String → Option ℚ) (pv : ℕ → ℕ → ℚ → ℚ)
    (hwr alpha : ℚ) (ming : ℕ) (stats : List (String × ℕ × ℕ))
    (h : ∀ ts ∈ stats, ts.2.1 < ming) :
    buildSynergies cwr pv hwr alpha ming stats = ([], 0) :=
  foldl_synergyStep_skip cwr pv hwr alpha ming stats h ([], 0)

/-- Claim C8 (amended).  Every hero with at least one match yields a result
(never an error); when the tracked maximum games-together `mg` is positive
the result carries `power_analysis = calculate_power_analysis mg`, whose
block holds the hero's actual maximum teammate sample size and the required
sample sizes for 3%, 5% and 10% effects from the 0.5 baseline; but a hero
whose teammate entries all fall below the games threshold (in particular a
hero with zero qualifying teammates) gets an empty synergy list WITHOUT a
power-analysis block (`power_analysis = none`), because the code attaches
the block only when `max_games > 0`. -/
theorem power_analysis_attached (cwr : String → Option ℚ) (pv : ℕ → ℕ → ℚ → ℚ)
    (hero : String) (hwr : ℚ) (ms : List MatchEntry) (ming : ℕ)
    (rt : Option String) (alpha : ℚ) (mg : ℕ)
    (hne : ms.isEmpty = false)
    (hmg : (buildSynergies cwr pv hwr alpha ming (teammate_stats hero ms)).2 = mg) :
    ∃ res, analyze_hero_synergies cwr pv hero hwr ms ming rt alpha = some res ∧
      (0 < mg → res.power_analysis = some (calculate_power_analysis mg)) ∧
      (calculate_power_analysis mg).current_max_samples = mg ∧
      (calculate_power_analysis mg).required_for_3pct_synergy
        = calculate_required_sample_size z95 zBeta80 (1/2) (3/100) ∧
      (calculate_power_analysis mg).required_for_5pct_synergy
        = calculate_required_sample_size z95 zBeta80 (1/2) (1/20) ∧
      (calculate_power_analysis mg).required_for_10pct_synergy
        = calculate_required_sample_size z95 zBeta80 (1/2) (1/10) ∧
      ((∀ ts ∈ teammate_stats hero ms, ts.2.1 < ming) →
        mg = 0 ∧ res.synergies = [] ∧ res.power_analysis = none) := by
  rw [analyze_hero_synergies]
  rw [if_neg (by rw [hne]; exact Bool.false_ne_true)]
  refine ⟨_, rfl, ?_, ?_, ?_, ?_, ?_, ?_⟩
  · intro h0
    simp only []
    rw [hmg, if_pos h0]
  · simp [calculate_power_analysis]
  · simp [calculate_power_analysis]
  · simp [calculate_power_analysis]
  · simp [calculate_power_analysis]
  · intro hall
    have hb := buildSynergies_all_skip cwr pv hwr alpha ming (teammate_stats hero ms) hall
    have hmg0 : mg = 0 := by rw [← hmg, hb]
    refine ⟨hmg0, ?_, ?_⟩
    · simp only []
      rw [hb]
      simp [sortBySynergyDesc]
    · simp only []
      rw [hb]
      norm_num

lemma buildSynergies_W_mg :
    (buildSynergies cwrW pvW (1/2) (1/20) 1 (teammate_stats "Hulk" msW)).2 = 2 := by
  norm_num [msW, teammate_stats, extract_teammates_from_match, bumpTeammate,
    buildSynergies, synergyStep, cwrW, List.foldl, List.filter, Nat.zero_max]

/-- Witness for `power_analysis_attached`: the concrete two-match run, whose
maximum games-together is 2. -/
theorem power_analysis_attached_witness :
    msW.isEmpty = false ∧
    (buildSynergies cwrW pvW (1/2) (1/20) 1 (teammate_stats "Hulk" msW)).2 = 2 ∧
    ∃ res, analyze_hero_synergies cwrW pvW "Hulk" (1/2) msW 1 none (1/20) = some res ∧
      (0 < 2 → res.power_analysis = some (calculate_power_analysis 2)) ∧
      (calculate_power_analysis 2).current_max_samples = 2 ∧
      (calculate_power_analysis 2).required_for_3pct_synergy
        = calculate_required_sample_size z95 zBeta80 (1/2) (3/100) ∧
      (calculate_power_analysis 2).required_for_5pct_synergy
        = calculate_required_sample_size z95 zBeta80 (1/2) (1/20) ∧
      (calculate_power_analysis 2).required_for_10pct_synergy
        = calculate_required_sample_size z95 zBeta80 (1/2) (1/10) ∧
      ((∀ ts ∈ teammate_stats "Hulk" msW, ts.2.1 < 1) →
        2 = 0 ∧ res.synergies = [] ∧ res.power_analysis = none) :=
  ⟨by simp [msW], buildSynergies_W_mg,
    power_analysis_attached cwrW pvW "Hulk" (1/2) msW 1 none (1/20) 2
      (by simp [msW]) buildSynergies_W_mg⟩

/-- Counterexample to the unamended claim C8: a hero with one match whose
only teammate entry (1 game together) is below the default 50-game
threshold is analyzed without error, but its result carries NO
power-analysis block: the field is `none`, not an attached block. -/
theorem power_analysis_missing :
    (analyze_hero_synergies cwrW pvW "Hulk" (1/2) [⟨true, ["Thor"]⟩]
        MIN_GAMES_TOGETHER none (1/20)).map (fun r => r.power_analysis)
      = some none := by
  norm_num [analyze_hero_synergies, teammate_stats, extract_teammates_from_match,
    bumpTeammate, buildSynergies, synergyStep, cwrW, MIN_GAMES_TOGETHER,
    List.foldl, List.filter, Option.map, sortBySynergyDesc, TOP_N_SYNERGIES]
